import Mathlib

/-!
ImPPG: settings, histogram, adaptive unsharp-mask curve, alignment progress.

A shallow embedding of parts of ImPPG:

* `common/src/common.cpp`: `DetermineHistogram`, `GetAdaptiveUnshMaskTransitionCurve`;
* `common/include/common/proc_settings.h`: `ProcessingSettings`, `IsEffective`;
* `settings.cpp`: `SaveSettings`, `LoadSettings` and the section parsers;
* `align_progress.cpp`: the controls of `c_ImageAlignmentProgress`, `OnThreadEvent`,
  `EndModal` and `AlignImages`, with a step model of the dialog and its worker thread.

Conventions.  A C++ `float` is a rational number (`ℚ`): comparisons are exact, and the one
place where a pixel is multiplied (`DetermineHistogram`) takes the rounding of the product
to `float` as a parameter.  `roundFloat` is that rounding for IEEE 754 binary32, and
`GetAdaptiveUnshMaskTransitionCurveRounded` is the transition curve with every operation
rounded, next to `GetAdaptiveUnshMaskTransitionCurve`, the same formulas in exact
arithmetic.  A `wxString` is a `String`.  Functions that return `bool` and write their
results through reference parameters return an `Option` of the values written.
-/

namespace Imppg

/-! ## Definitions -/

/-! ### `GetAdaptiveUnshMaskTransitionCurve` (common.cpp) -/

/-- Coefficients `{a, b, c, d}` as returned in the `std::array<float, 4>`. -/
structure CurveCoeffs where
  a : ℚ
  b : ℚ
  c : ℚ
  d : ℚ
  deriving DecidableEq

/-- The function `GetAdaptiveUnshMaskTransitionCurve` of common.cpp, in exact arithmetic. -/
def GetAdaptiveUnshMaskTransitionCurve (amountMin amountMax threshold width : ℚ) : CurveCoeffs :=
  let divisor := 4 * width * width * width
  let a := (amountMin - amountMax) / divisor
  let b := 3 * (amountMax - amountMin) * threshold / divisor
  let c := 3 * (amountMax - amountMin) * (width - threshold) * (width + threshold) / divisor
  let d := (2 * width * width * width * (amountMin + amountMax) +
      3 * threshold * width * width * (amountMin - amountMax) +
      threshold * threshold * threshold * (amountMax - amountMin)) / divisor
  { a := a, b := b, c := c, d := d }

/-- The cubic `f(x) = a*x^3 + b*x^2 + c*x + d` built from returned coefficients. -/
def CurveCoeffs.eval (k : CurveCoeffs) (x : ℚ) : ℚ :=
  k.a * x ^ 3 + k.b * x ^ 2 + k.c * x + k.d

/-- The transition cubic of the given unsharp-masking parameters, evaluated at `x`. -/
def transitionCurve (amountMin amountMax threshold width x : ℚ) : ℚ :=
  (GetAdaptiveUnshMaskTransitionCurve amountMin amountMax threshold width).eval x

/-! ### `ProcessingSettings` (proc_settings.h) -/

/-- Modelled from the spec: `c_ToneCurve` (its header `common/tcrv.h` is not among the
sources): ordered control points, a smooth flag, a gamma-mode flag and the gamma value. -/
structure c_ToneCurve where
  m_Smooth : Bool
  m_IsGamma : Bool
  m_Gamma : ℚ
  m_Points : List (ℚ × ℚ)
  deriving DecidableEq

namespace c_ToneCurve

def GetSmooth (t : c_ToneCurve) : Bool := t.m_Smooth
def IsGammaMode (t : c_ToneCurve) : Bool := t.m_IsGamma
def GetGamma (t : c_ToneCurve) : ℚ := t.m_Gamma
def GetNumPoints (t : c_ToneCurve) : Nat := t.m_Points.length
def GetPoint (t : c_ToneCurve) (i : Nat) : ℚ × ℚ := t.m_Points.getD i (0, 0)
def SetSmooth (t : c_ToneCurve) (smooth : Bool) : c_ToneCurve := { t with m_Smooth := smooth }
def SetGammaMode (t : c_ToneCurve) (isGamma : Bool) : c_ToneCurve := { t with m_IsGamma := isGamma }
def SetGamma (t : c_ToneCurve) (gamma : ℚ) : c_ToneCurve := { t with m_Gamma := gamma }
def ClearPoints (t : c_ToneCurve) : c_ToneCurve := { t with m_Points := [] }
def AddPoint (t : c_ToneCurve) (x y : ℚ) : c_ToneCurve := { t with m_Points := t.m_Points ++ [(x, y)] }

end c_ToneCurve

/-- The member `normalization` of `ProcessingSettings`. -/
structure NormalizationSettings where
  enabled : Bool
  min : ℚ
  max : ℚ
  deriving DecidableEq

/-- The member `LucyRichardson.deringing`. -/
structure DeringingSettings where
  enabled : Bool
  deriving DecidableEq

/-- The member `LucyRichardson` of `ProcessingSettings`. -/
structure LucyRichardsonSettings where
  sigma : ℚ
  iterations : Int
  deringing : DeringingSettings
  deriving DecidableEq

/-- The member `unsharpMasking` of `ProcessingSettings`. -/
structure UnsharpMaskingSettings where
  adaptive : Bool
  sigma : ℚ
  amountMin : ℚ
  amountMax : ℚ
  threshold : ℚ
  width : ℚ
  deriving DecidableEq

/-- The method `IsEffective` of the `unsharpMasking` member:
`!adaptive && amountMax != 1.0f || adaptive && (amountMin != 1.0f || amountMax != 1.0f)`. -/
def UnsharpMaskingSettings.IsEffective (u : UnsharpMaskingSettings) : Bool :=
  (!u.adaptive && decide (u.amountMax ≠ 1)) ||
    (u.adaptive && (decide (u.amountMin ≠ 1) || decide (u.amountMax ≠ 1)))

/-- The struct `ProcessingSettings`. -/
structure ProcessingSettings where
  normalization : NormalizationSettings
  LucyRichardson : LucyRichardsonSettings
  unsharpMasking : UnsharpMaskingSettings
  toneCurve : c_ToneCurve
  deriving DecidableEq

/-- A default-constructed `unsharpMasking` member: the default member initialisers give
`adaptive{false}`, `amountMin{1.0}`, `amountMax{1.0}`; `sigma`, `threshold` and `width` have
no initialiser, so their values are arbitrary. -/
def UnsharpMaskingSettings.defaultConstructed (sigma threshold width : ℚ) :
    UnsharpMaskingSettings :=
  { adaptive := false, sigma := sigma, amountMin := 1, amountMax := 1,
    threshold := threshold, width := width }

/-! ### `DetermineHistogram` (common.cpp) -/

/-- The class `wxRect`: position and size, all of type `int`. -/
structure wxRect where
  x : Int
  y : Int
  width : Int
  height : Int

/-- The class `c_Image` as `DetermineHistogram` reads it: `pixel r c` is
`GetRowAs<float>(r)[c]`. -/
structure c_Image where
  pixel : Int → Int → ℚ

/-- Modelled from the spec: `Histogram` (declared in `common/common.h`, which is not among
the sources): per-bin counts, min/max float bounds and the largest bin count. -/
structure Histogram where
  values : List Nat
  minValue : ℚ
  maxValue : ℚ
  maxCount : Nat
  deriving DecidableEq

/-- The constant `NUM_HISTOGRAM_BINS` of `DetermineHistogram`. -/
def NUM_HISTOGRAM_BINS : Nat := 1024

/-- The constant `FLT_MAX` of `<cfloat>`: `(2 - 2^(-23)) * 2^127`. -/
def FLT_MAX : ℚ := (2 ^ 24 - 1) * 2 ^ 104

/-- The conversion `static_cast<unsigned>(f)` of a `float`: the value is truncated toward
zero; the result is undefined (`none`) when the truncated value is not an `unsigned`. -/
def castUnsigned (f : ℚ) : Option Nat :=
  let t : Int := if 0 ≤ f then ⌊f⌋ else ⌈f⌉
  if 0 ≤ t ∧ t < 2 ^ 32 then some t.toNat else none

/-- The statement `values[hbin] += 1` on a vector of counts. -/
def incrementAt : List Nat → Nat → List Nat
  | [], _ => []
  | v :: vs, 0 => (v + 1) :: vs
  | v :: vs, i + 1 => v :: incrementAt vs i

/-- The body of the inner loop of `DetermineHistogram` for one pixel value `p = row[x]`.
`round` is the rounding of an exact product to `float`; `none` stands for a failed
`IMPPG_ASSERT(hbin < NUM_HISTOGRAM_BINS)` (or an undefined conversion). -/
def histogramPixel (round : ℚ → ℚ) (histogram : Histogram) (p : ℚ) : Option Histogram :=
  let h1 : Histogram :=
    if p < histogram.minValue then { histogram with minValue := p }
    else if p > histogram.maxValue then { histogram with maxValue := p }
    else histogram
  match castUnsigned (round (p * ((NUM_HISTOGRAM_BINS : ℚ) - 1))) with
  | none => none
  | some hbin =>
    if hbin < NUM_HISTOGRAM_BINS then some { h1 with values := incrementAt h1.values hbin }
    else none

/-- The inner loop `for (int x = 0; x < selection.width; x++)` over row `selection.y + y`. -/
def histogramRow (round : ℚ → ℚ) (img : c_Image) (selection : wxRect)
    (histogram : Histogram) (y : Nat) : Option Histogram :=
  (List.range selection.width.toNat).foldlM
    (fun h (x : Nat) => histogramPixel round h (img.pixel (selection.y + y) (selection.x + x)))
    histogram

/-- The final loop of `DetermineHistogram`: the largest bin count. -/
def histogramMaxCount (values : List Nat) : Nat :=
  values.foldl (fun maxCount v => if v > maxCount then v else maxCount) 0

/-- The function `DetermineHistogram` of common.cpp. -/
def DetermineHistogram (round : ℚ → ℚ) (img : c_Image) (selection : wxRect) :
    Option Histogram :=
  let histogram : Histogram :=
    { values := List.replicate NUM_HISTOGRAM_BINS 0, minValue := FLT_MAX, maxValue := -FLT_MAX,
      maxCount := 0 }
  match (List.range selection.height.toNat).foldlM (histogramRow round img selection)
      histogram with
  | none => none
  | some h => some { h with maxCount := histogramMaxCount h.values }

/-- The number of pixels of a selection, `width * height` (the loops of `DetermineHistogram`
visit no pixel when a dimension is not positive). -/
def wxRect.pixelCount (selection : wxRect) : Nat :=
  selection.width.toNat * selection.height.toNat

/-- An image whose every pixel holds the value `v`. -/
def uniformImage (v : ℚ) : c_Image := { pixel := fun _ _ => v }

/-! ### The alignment progress dialog (align_progress.cpp) -/

/-- The identifiers of the worker-thread events in the event table of the dialog. -/
inductive AlignmentEventId where
  | EID_ABORTED
  | EID_COMPLETED
  | EID_PHASECORR_IMG_TRANSLATION
  | EID_SAVED_OUTPUT_IMAGE
  | EID_LIMB_FOUND_DISC_RADIUS
  | EID_LIMB_USING_RADIUS
  | EID_LIMB_STABILIZATION_PROGRESS
  | EID_LIMB_STABILIZATION_FAILURE
  deriving DecidableEq

/-- The payload `AlignmentEventPayload_t` of an event: a translation vector and a radius. -/
structure AlignmentEventPayload_t where
  translation : ℚ × ℚ
  radius : ℚ
  deriving DecidableEq

/-- The class `wxThreadEvent` as the dialog reads it: `GetId()`, `GetInt()`, `GetString()`
and `GetPayload<AlignmentEventPayload_t>()`. -/
structure wxThreadEvent where
  id : AlignmentEventId
  int : Int
  string : String
  payload : AlignmentEventPayload_t
  deriving DecidableEq

/-- The control `wxGauge`: its range and its current value. -/
structure wxGauge where
  range : Int
  value : Int
  deriving DecidableEq

def wxGauge.SetRange (g : wxGauge) (range : Int) : wxGauge := { g with range := range }
def wxGauge.SetValue (g : wxGauge) (pos : Int) : wxGauge := { g with value := pos }

/-- The enumeration `AlignmentMethod`. -/
inductive AlignmentMethod where
  | PHASE_CORRELATION
  | LIMB
  deriving DecidableEq

/-- The parameters `AlignmentParameters_t` as the dialog reads them: the alignment method and
`inputFiles.Count()`. -/
structure AlignmentParameters_t where
  alignmentMethod : AlignmentMethod
  inputFilesCount : Nat
  deriving DecidableEq

/-- A text appended to the log control `m_InfoLog`, kept as the arguments of its format
string. -/
inductive LogText where
  | newline
  | translated (image count : Int) (x y : ℚ)
  | saved (image count : Int)
  | usingRadius (radius : ℚ)
  | discRadius (image count : Int) (radius : ℚ)
  | message (text : String)
  deriving DecidableEq

def wxID_OK : Int := 5100
def wxID_CANCEL : Int := 5101

/-- The dialog `c_ImageAlignmentProgress`: its controls, its parameters, whether a worker
thread is registered in `m_WorkerThread`, and the code passed to `wxDialog::EndModal`. -/
structure c_ImageAlignmentProgress where
  m_WorkerThread : Bool
  m_ProgressGauge : wxGauge
  m_InfoText : String
  m_InfoLog : List LogText
  m_Parameters : AlignmentParameters_t
  endModalCode : Option Int
  deriving DecidableEq

/-- The constructor of the dialog followed by `InitControls`: the gauge is created with range
100 and its range is set to `inputFiles.Count() - 1`. -/
def c_ImageAlignmentProgress.InitControls (params : AlignmentParameters_t) :
    c_ImageAlignmentProgress :=
  { m_WorkerThread := false
    m_ProgressGauge := (wxGauge.mk 100 0).SetRange ((params.inputFilesCount : Int) - 1)
    m_InfoText :=
      if params.alignmentMethod = AlignmentMethod.PHASE_CORRELATION then
        "Determining translation vectors..."
      else ""
    m_InfoLog := []
    m_Parameters := params
    endModalCode := none }

/-- The method `EndModal`: a registered worker is told to abort and the dialog waits until the
worker has cleared `m_WorkerThread`; then `wxDialog::EndModal(retCode)` is called. -/
def c_ImageAlignmentProgress.EndModal (dlg : c_ImageAlignmentProgress) (retCode : Int) :
    c_ImageAlignmentProgress :=
  { dlg with m_WorkerThread := false, endModalCode := some retCode }

/-- The method `OnThreadEvent`.  For the two terminal events the handler first waits until
`m_WorkerThread` holds no worker; the message boxes have no effect on the controls. -/
def c_ImageAlignmentProgress.OnThreadEvent (dlg : c_ImageAlignmentProgress)
    (event : wxThreadEvent) : c_ImageAlignmentProgress :=
  let count : Int := dlg.m_Parameters.inputFilesCount
  match event.id with
  | .EID_ABORTED =>
    ({ dlg with m_WorkerThread := false } : c_ImageAlignmentProgress).EndModal wxID_CANCEL
  | .EID_COMPLETED => { dlg with m_WorkerThread := false }
  | .EID_PHASECORR_IMG_TRANSLATION =>
    { dlg with
      m_ProgressGauge := dlg.m_ProgressGauge.SetValue event.int
      m_InfoLog := dlg.m_InfoLog ++
        [LogText.translated (event.int + 1) count event.payload.translation.1
          event.payload.translation.2] }
  | .EID_SAVED_OUTPUT_IMAGE =>
    let dlg1 : c_ImageAlignmentProgress :=
      if event.int = 0 then
        { dlg with
          m_InfoText := "Translating and saving output images..."
          m_ProgressGauge := dlg.m_ProgressGauge.SetRange count
          m_InfoLog := dlg.m_InfoLog ++ [LogText.newline] }
      else dlg
    { dlg1 with
      m_ProgressGauge := dlg1.m_ProgressGauge.SetValue (event.int + 1)
      m_InfoLog := dlg1.m_InfoLog ++ [LogText.saved (event.int + 1) count] }
  | .EID_LIMB_USING_RADIUS =>
    { dlg with m_InfoLog := dlg.m_InfoLog ++ [LogText.usingRadius event.payload.radius] }
  | .EID_LIMB_STABILIZATION_PROGRESS =>
    let dlg1 : c_ImageAlignmentProgress :=
      if event.int = 0 then
        { dlg with
          m_InfoText := "Performing final stabilization..."
          m_ProgressGauge := dlg.m_ProgressGauge.SetRange count }
      else dlg
    { dlg1 with m_ProgressGauge := dlg1.m_ProgressGauge.SetValue (event.int + 1) }
  | .EID_LIMB_STABILIZATION_FAILURE =>
    { dlg with m_InfoLog := dlg.m_InfoLog ++ [LogText.message event.string] }
  | .EID_LIMB_FOUND_DISC_RADIUS =>
    let dlg1 : c_ImageAlignmentProgress :=
      if event.int = 0 then
        { dlg with
          m_InfoText := "Determining disc radius in images..."
          m_ProgressGauge := dlg.m_ProgressGauge.SetRange count
          m_InfoLog := dlg.m_InfoLog ++ [LogText.newline] }
      else dlg
    { dlg1 with
      m_InfoLog := dlg1.m_InfoLog ++
        [LogText.discRadius (event.int + 1) count event.payload.radius]
      m_ProgressGauge := dlg1.m_ProgressGauge.SetValue (event.int + 1) }

/-- The gauge after each event of a sequence has been handled, in order. -/
def gaugeTrace (dlg : c_ImageAlignmentProgress) : List wxThreadEvent → List wxGauge
  | [] => []
  | event :: events =>
    (dlg.OnThreadEvent event).m_ProgressGauge :: gaugeTrace (dlg.OnThreadEvent event) events

/-- A translation event with index `i`, as posted for image `i` of a phase-correlation run. -/
def translationEvent (payload : Nat → AlignmentEventPayload_t) (i : Nat) : wxThreadEvent :=
  { id := .EID_PHASECORR_IMG_TRANSLATION, int := i, string := "", payload := payload i }

/-- A save event with index `i`. -/
def savedEvent (i : Nat) : wxThreadEvent :=
  { id := .EID_SAVED_OUTPUT_IMAGE, int := i, string := "", payload := ⟨(0, 0), 0⟩ }

/-- The events of a phase-correlation run over `n` files that reach the gauge: translation
events with indices `1 .. n-1`, then save events with indices `0 .. n-1`. -/
def phaseCorrelationEvents (payload : Nat → AlignmentEventPayload_t) (n : Nat) :
    List wxThreadEvent :=
  (List.range' 1 (n - 1)).map (translationEvent payload) ++ (List.range' 0 n).map savedEvent

/-! ### Settings files (settings.cpp) -/

/-- The node types of `wxXmlNode` that occur in a settings document. -/
inductive wxXmlNodeType where
  | wxXML_ELEMENT_NODE
  | wxXML_TEXT_NODE
  | wxXML_CDATA_SECTION_NODE
  | wxXML_COMMENT_NODE
  deriving DecidableEq

/-- The class `wxXmlNode` of wxWidgets: type, name, content, attributes in order and children
in order. -/
inductive wxXmlNode where
  | mk (type : wxXmlNodeType) (name : String) (content : String)
      (attributes : List (String × String)) (children : List wxXmlNode)

namespace wxXmlNode

def GetType : wxXmlNode → wxXmlNodeType
  | mk type _ _ _ _ => type

def GetName : wxXmlNode → String
  | mk _ name _ _ _ => name

def GetContent : wxXmlNode → String
  | mk _ _ content _ _ => content

def GetAttributes : wxXmlNode → List (String × String)
  | mk _ _ _ attributes _ => attributes

def GetChildren : wxXmlNode → List wxXmlNode
  | mk _ _ _ _ children => children

/-- The value of the first attribute of the given name, the empty string when there is
none (`GetAttribute(attrName, defaultVal = wxEmptyString)`). -/
def GetAttribute (node : wxXmlNode) (attrName : String) : String :=
  match node.GetAttributes.find? (fun a => a.1 = attrName) with
  | some a => a.2
  | none => ""

/-- The content of the first child of type text or CDATA, the empty string when there is
none. -/
def GetNodeContent (node : wxXmlNode) : String :=
  match node.GetChildren.find? (fun c =>
      c.GetType = wxXmlNodeType.wxXML_TEXT_NODE ∨
        c.GetType = wxXmlNodeType.wxXML_CDATA_SECTION_NODE) with
  | some c => c.GetContent
  | none => ""

/-- The call `AddAttribute(name, value)`: the attribute is appended. -/
def AddAttribute : wxXmlNode → String → String → wxXmlNode
  | mk type name content attributes children, attrName, value =>
    mk type name content (attributes ++ [(attrName, value)]) children

/-- The call `AddChild(child)`: the child is appended. -/
def AddChild : wxXmlNode → wxXmlNode → wxXmlNode
  | mk type name content attributes children, child =>
    mk type name content attributes (children ++ [child])

/-- The expression `new wxXmlNode(wxXML_ELEMENT_NODE, name)`. -/
def newElement (name : String) : wxXmlNode :=
  mk wxXmlNodeType.wxXML_ELEMENT_NODE name "" [] []

/-- The expression `new wxXmlNode(wxXML_TEXT_NODE, wxEmptyString, content)`. -/
def newText (content : String) : wxXmlNode :=
  mk wxXmlNodeType.wxXML_TEXT_NODE "" content [] []

end wxXmlNode

/-- The functions that settings.cpp calls and whose code is not among the sources, taken as
parameters: `NumFormatter::Format`, `NumFormatter::Parse` and `NumFormatter::ParseList` of
`num_formatter.h`, `wxString::Format("%d", n)` and `wxString::ToULong` of wxWidgets, and the
default constructor of `c_ToneCurve`.  A parser returns `none` where the C++ function returns
`false`. -/
structure TextFunctions where
  Format : ℚ → Nat → String
  Parse : String → Option ℚ
  ParseList : String → Char → Option (List ℚ)
  FormatInt : Int → String
  ToULong : String → Option Nat
  defaultToneCurve : c_ToneCurve

def FLOAT_PREC : Nat := 4

namespace XmlName

def root : String := "imppg"

def lucyRichardson : String := "lucy-richardson"
def lrSigma : String := "sigma"
def lrIters : String := "iterations"
def lrDeringing : String := "deringing"

def unshMask : String := "unsharp_mask"
def unshAdaptive : String := "adaptive"
def unshSigma : String := "sigma"
def unshAmountMin : String := "amount_min"
def unshAmountMax : String := "amount_max"
def unshThreshold : String := "amount_threshold"
def unshWidth : String := "amount_width"

def tcurve : String := "tone_curve"
def tcSmooth : String := "smooth"
def tcIsGamma : String := "is_gamma"
def tcGamma : String := "gamma"

def normalization : String := "normalization"
def normEnabled : String := "enabled"
def normMin : String := "min"
def normMax : String := "max"

end XmlName

def trueStr : String := "true"
def falseStr : String := "false"

/-- The expression `flag ? trueStr : falseStr`. -/
def boolStr (flag : Bool) : String := if flag then trueStr else falseStr

/-- The string `pointsStr` built by the loop of `CreateToneCurveSettingsNode`. -/
def buildPointsStr (tf : TextFunctions) (points : List (ℚ × ℚ)) : String :=
  points.foldl (fun str p =>
    str ++ (tf.Format p.1 FLOAT_PREC ++ ";" ++ tf.Format p.2 FLOAT_PREC ++ ";")) ""

/-- The function `CreateToneCurveSettingsNode`. -/
def CreateToneCurveSettingsNode (tf : TextFunctions) (toneCurve : c_ToneCurve) : wxXmlNode :=
  let result := wxXmlNode.newElement XmlName.tcurve
  let result := result.AddAttribute XmlName.tcSmooth (boolStr toneCurve.GetSmooth)
  let result := result.AddAttribute XmlName.tcIsGamma (boolStr toneCurve.IsGammaMode)
  let result :=
    if toneCurve.IsGammaMode then
      result.AddAttribute XmlName.tcGamma (tf.Format toneCurve.GetGamma FLOAT_PREC)
    else result
  let pointsStr := buildPointsStr tf
    ((List.range toneCurve.GetNumPoints).map (fun i => toneCurve.GetPoint i))
  result.AddChild (wxXmlNode.newText pointsStr)

/-- The function `CreateLucyRichardsonSettingsNode`. -/
def CreateLucyRichardsonSettingsNode (tf : TextFunctions) (lrSigma : ℚ) (lrIters : Int)
    (lrDeringing : Bool) : wxXmlNode :=
  let result := wxXmlNode.newElement XmlName.lucyRichardson
  let result := result.AddAttribute XmlName.lrSigma (tf.Format lrSigma FLOAT_PREC)
  let result := result.AddAttribute XmlName.lrIters (tf.FormatInt lrIters)
  result.AddAttribute XmlName.lrDeringing (boolStr lrDeringing)

/-- The function `CreateUnsharpMaskingSettingsNode`. -/
def CreateUnsharpMaskingSettingsNode (tf : TextFunctions) (adaptive : Bool)
    (sigma amountMin amountMax threshold width : ℚ) : wxXmlNode :=
  let result := wxXmlNode.newElement XmlName.unshMask
  let result := result.AddAttribute XmlName.unshAdaptive (boolStr adaptive)
  let result := result.AddAttribute XmlName.unshSigma (tf.Format sigma FLOAT_PREC)
  let result := result.AddAttribute XmlName.unshAmountMin (tf.Format amountMin FLOAT_PREC)
  let result := result.AddAttribute XmlName.unshAmountMax (tf.Format amountMax FLOAT_PREC)
  let result := result.AddAttribute XmlName.unshThreshold (tf.Format threshold FLOAT_PREC)
  result.AddAttribute XmlName.unshWidth (tf.Format width FLOAT_PREC)

/-- The function `CreateNormalizationSettingsNode`. -/
def CreateNormalizationSettingsNode (tf : TextFunctions) (normalizationEnabled : Bool)
    (normMin normMax : ℚ) : wxXmlNode :=
  let result := wxXmlNode.newElement XmlName.normalization
  let result := result.AddAttribute XmlName.normEnabled (boolStr normalizationEnabled)
  let result := result.AddAttribute XmlName.normMin (tf.Format normMin FLOAT_PREC)
  result.AddAttribute XmlName.normMax (tf.Format normMax FLOAT_PREC)

/-- The function `SaveSettings`: the root node that it hands to `CreateAndSaveDocument`
(writing the document to the file is not modelled). -/
def SaveSettings (tf : TextFunctions) (settings : ProcessingSettings) : wxXmlNode :=
  let root := wxXmlNode.newElement XmlName.root
  let root := root.AddChild (CreateLucyRichardsonSettingsNode tf
    settings.LucyRichardson.sigma
    settings.LucyRichardson.iterations
    settings.LucyRichardson.deringing.enabled)
  let root := root.AddChild (CreateUnsharpMaskingSettingsNode tf
    settings.unsharpMasking.adaptive
    settings.unsharpMasking.sigma
    settings.unsharpMasking.amountMin
    settings.unsharpMasking.amountMax
    settings.unsharpMasking.threshold
    settings.unsharpMasking.width)
  let root := root.AddChild (CreateToneCurveSettingsNode tf settings.toneCurve)
  root.AddChild (CreateNormalizationSettingsNode tf
    settings.normalization.enabled
    settings.normalization.min
    settings.normalization.max)

/-- The conversion `static_cast<int>(value)` of an `unsigned long`. -/
def castInt (value : Nat) : Int := Int.bmod value (2 ^ 32)

/-- The function `ParseLucyRichardsonSettings`: `(sigma, iterations, deringing)`. -/
def ParseLucyRichardsonSettings (tf : TextFunctions) (node : wxXmlNode) :
    Option (ℚ × Int × Bool) :=
  match tf.Parse (node.GetAttribute XmlName.lrSigma) with
  | none => none
  | some sigma =>
    match tf.ToULong (node.GetAttribute XmlName.lrIters) with
    | none => none
    | some value =>
      let iterations := castInt value
      if node.GetAttribute XmlName.lrDeringing = trueStr then some (sigma, iterations, true)
      else if node.GetAttribute XmlName.lrDeringing = falseStr then
        some (sigma, iterations, false)
      else none

/-- The function `ParseUnsharpMaskingSettings`. -/
def ParseUnsharpMaskingSettings (tf : TextFunctions) (node : wxXmlNode) :
    Option UnsharpMaskingSettings :=
  let adaptive? : Option Bool :=
    if node.GetAttribute XmlName.unshAdaptive = trueStr then some true
    else if node.GetAttribute XmlName.unshAdaptive = falseStr then some false
    else none
  match adaptive? with
  | none => none
  | some adaptive =>
    match tf.Parse (node.GetAttribute XmlName.unshSigma) with
    | none => none
    | some sigma =>
      match tf.Parse (node.GetAttribute XmlName.unshAmountMin) with
      | none => none
      | some amountMin =>
        match tf.Parse (node.GetAttribute XmlName.unshAmountMax) with
        | none => none
        | some amountMax =>
          match tf.Parse (node.GetAttribute XmlName.unshThreshold) with
          | none => none
          | some threshold =>
            match tf.Parse (node.GetAttribute XmlName.unshWidth) with
            | none => none
            | some width =>
              some { adaptive := adaptive, sigma := sigma, amountMin := amountMin,
                     amountMax := amountMax, threshold := threshold, width := width }

/-- The function `ParseNormalizationSetings`. -/
def ParseNormalizationSetings (tf : TextFunctions) (node : wxXmlNode) :
    Option NormalizationSettings :=
  let enabled? : Option Bool :=
    if node.GetAttribute XmlName.normEnabled = "true" then some true
    else if node.GetAttribute XmlName.normEnabled = "false" then some false
    else none
  match enabled? with
  | none => none
  | some normalizationEnabled =>
    match tf.Parse (node.GetAttribute XmlName.normMin) with
    | none => none
    | some normMin =>
      match tf.Parse (node.GetAttribute XmlName.normMax) with
      | none => none
      | some normMax => some { enabled := normalizationEnabled, min := normMin, max := normMax }

/-- The loop `for (i = 0; i < points_xy.size(); i += 2) tcurve.AddPoint(points_xy[i],
points_xy[i + 1])`, run on a list of even length. -/
def addPoints (tcurve : c_ToneCurve) : List ℚ → c_ToneCurve
  | x :: y :: rest => addPoints (tcurve.AddPoint x y) rest
  | _ => tcurve

/-- The function `ParseToneCurveSettings`; `tcurve` is the curve passed by reference. -/
def ParseToneCurveSettings (tf : TextFunctions) (node : wxXmlNode) (tcurve : c_ToneCurve) :
    Option c_ToneCurve :=
  let boolStr := node.GetAttribute XmlName.tcSmooth
  let smooth? : Option c_ToneCurve :=
    if boolStr = "true" then some (tcurve.SetSmooth true)
    else if boolStr = "false" then some (tcurve.SetSmooth false)
    else none
  match smooth? with
  | none => none
  | some tcurve =>
    let boolStr := node.GetAttribute XmlName.tcIsGamma
    let gamma? : Option c_ToneCurve :=
      if boolStr = "true" then
        let tcurve := tcurve.SetGammaMode true
        match tf.Parse (node.GetAttribute XmlName.tcGamma) with
        | none => none
        | some gamma => some (tcurve.SetGamma gamma)
      else if boolStr = "false" then some (tcurve.SetGammaMode false)
      else none
    match gamma? with
    | none => none
    | some tcurve =>
      match tf.ParseList node.GetNodeContent ';' with
      | none => none
      | some points_xy =>
        if points_xy.length % 2 ≠ 0 then none
        else
          let tcurve := addPoints tcurve.ClearPoints points_xy
          if tcurve.GetNumPoints < 2 then none else some tcurve

/-- What a call of `LoadSettings` leaves behind: the value returned, the settings passed by
reference and the three flags written through `loadedLR`, `loadedUnsh`, `loadedTCurve`. -/
structure LoadResult where
  result : Bool
  settings : ProcessingSettings
  loadedLR : Bool
  loadedUnsh : Bool
  loadedTCurve : Bool
  deriving DecidableEq

/-- The body of the loop `while (child)` of `LoadSettings` for one child of the root; `none`
stands for `return false`. -/
def loadChild (tf : TextFunctions) (child : wxXmlNode) (st : LoadResult) : Option LoadResult :=
  if child.GetName = XmlName.lucyRichardson then
    match ParseLucyRichardsonSettings tf child with
    | none => none
    | some (sigma, iters, deringing) =>
      some { st with
        settings := { st.settings with
          LucyRichardson := { sigma := sigma, iterations := iters,
                              deringing := { enabled := deringing } } }
        loadedLR := true }
  else if child.GetName = XmlName.unshMask then
    match ParseUnsharpMaskingSettings tf child with
    | none => none
    | some unsh =>
      some { st with
        settings := { st.settings with unsharpMasking := unsh }
        loadedUnsh := true }
  else if child.GetName = XmlName.tcurve then
    match ParseToneCurveSettings tf child tf.defaultToneCurve with
    | none => none
    | some tcurve =>
      some { st with
        settings := { st.settings with toneCurve := tcurve }
        loadedTCurve := true }
  else if child.GetName = XmlName.normalization then
    match ParseNormalizationSetings tf child with
    | none => none
    | some norm => some { st with settings := { st.settings with normalization := norm } }
  else some st

/-- The loop `while (child)` of `LoadSettings` over the children of the root, followed by
`return true`. -/
def loadChildren (tf : TextFunctions) : List wxXmlNode → LoadResult → LoadResult
  | [], st => { st with result := true }
  | child :: rest, st =>
    match loadChild tf child st with
    | none => { st with result := false }
    | some st2 => loadChildren tf rest st2

/-- The state of `LoadSettings` before the document is opened: the three flags are cleared
and `LucyRichardson.deringing.enabled` and `normalization.enabled` are set to false. -/
def loadStart (settings : ProcessingSettings) : LoadResult :=
  { result := false
    settings := { settings with
      LucyRichardson := { settings.LucyRichardson with deringing := { enabled := false } }
      normalization := { settings.normalization with enabled := false } }
    loadedLR := false
    loadedUnsh := false
    loadedTCurve := false }

/-- The function `LoadSettings`.  `doc` is the root of the document read from the file,
`none` when `xdoc.Load` fails or the document has no root. -/
def LoadSettings (tf : TextFunctions) (doc : Option wxXmlNode) (settings : ProcessingSettings) :
    LoadResult :=
  match doc with
  | none => loadStart settings
  | some root => loadChildren tf root.GetChildren (loadStart settings)

/-! ### A concrete instance of the text functions -/

namespace NumFormatter

/-- The digits of `cs` read as a decimal number, `none` when a character is not a digit. -/
def parseDigits : List Char → Nat → Option Nat
  | [], acc => some acc
  | c :: cs, acc =>
    if 48 ≤ c.toNat ∧ c.toNat ≤ 57 then parseDigits cs (acc * 10 + (c.toNat - 48)) else none

/-- An unsigned decimal number: digits, optionally followed by a point and digits. -/
def parseUnsigned (cs : List Char) : Option ℚ :=
  let intDigits := cs.takeWhile (fun c => c ≠ '.')
  let rest := cs.dropWhile (fun c => c ≠ '.')
  if intDigits = [] then none
  else
    match parseDigits intDigits 0 with
    | none => none
    | some n =>
      match rest with
      | [] => some n
      | _ :: fracDigits =>
        match parseDigits fracDigits 0 with
        | none => none
        | some m => some ((n : ℚ) + (m : ℚ) / 10 ^ fracDigits.length)

/-- A decimal number with an optional minus sign. -/
def parseChars : List Char → Option ℚ
  | [] => none
  | c :: cs => if c = '-' then (parseUnsigned cs).map (fun q => -q) else parseUnsigned (c :: cs)

/-- The pieces of a text between separators; the text after the last separator is a piece
when it is not empty. -/
def splitChars (separator : Char) : List Char → List Char → List (List Char)
  | [], piece => if piece = [] then [] else [piece]
  | c :: cs, piece =>
    if c = separator then piece :: splitChars separator cs []
    else splitChars separator cs (piece ++ [c])

/-- Every piece parsed, `none` when one does not parse. -/
def parsePieces : List (List Char) → Option (List ℚ)
  | [] => some []
  | piece :: pieces =>
    match parseChars piece with
    | none => none
    | some q =>
      match parsePieces pieces with
      | none => none
      | some qs => some (q :: qs)

/-- The last `len` decimal digits of `n`, the most significant first. -/
def lastDigits : Nat → Nat → List Char
  | 0, _ => []
  | len + 1, n => lastDigits len (n / 10) ++ [Nat.digitChar (n % 10)]

/-- Modelled from the spec: `NumFormatter::Format` (num_formatter.h is not among the
sources), "numeric values are formatted with 4 decimal digits of precision": the value
rounded to `precision` decimals, written as an optional minus sign, the integer digits, a
point and `precision` fractional digits. -/
def Format (value : ℚ) (precision : Nat) : String :=
  let scaled : Int := Rat.floor (value * 10 ^ precision + 1 / 2)
  let sign : List Char := if scaled < 0 then ['-'] else []
  String.mk (sign ++ Nat.toDigits 10 (scaled.natAbs / 10 ^ precision) ++
    ('.' :: lastDigits precision scaled.natAbs))

/-- Modelled from the spec: `NumFormatter::Parse` (num_formatter.h is not among the
sources): the number written in decimal notation, `none` for any other text. -/
def Parse (s : String) : Option ℚ := parseChars s.data

/-- Modelled from the spec: `NumFormatter::ParseList` (num_formatter.h is not among the
sources): the numbers of a list written with a separator after or between its items. -/
def ParseList (s : String) (separator : Char) : Option (List ℚ) :=
  parsePieces (splitChars separator s.data [])

/-- A character is a decimal digit. -/
def IsDigit (c : Char) : Prop := 48 ≤ c.toNat ∧ c.toNat ≤ 57

end NumFormatter

/-- The call `wxString::Format("%d", n)` of wxWidgets: the decimal digits of `n`. -/
def wxStringFormatInt (n : Int) : String :=
  String.mk ((if n < 0 then ['-'] else []) ++ Nat.toDigits 10 n.natAbs)

/-- The call `wxString::ToULong` of wxWidgets on a 64-bit `unsigned long`: like `strtoul`, a
minus sign is accepted and the value is negated as an unsigned number. -/
def wxStringToULong (s : String) : Option Nat :=
  match s.data with
  | [] => none
  | c :: cs =>
    if c = '-' then
      if cs = [] then none
      else
        match NumFormatter.parseDigits cs 0 with
        | none => none
        | some n => if n < 2 ^ 64 then some ((2 ^ 64 - n) % 2 ^ 64) else none
    else
      match NumFormatter.parseDigits (c :: cs) 0 with
      | none => none
      | some n => if n < 2 ^ 64 then some n else none

/-- The decimal text functions, with `tcurve` as the default-constructed tone curve. -/
def decimalText (tcurve : c_ToneCurve) : TextFunctions :=
  { Format := NumFormatter.Format
    Parse := NumFormatter.Parse
    ParseList := NumFormatter.ParseList
    FormatInt := wxStringFormatInt
    ToULong := wxStringToULong
    defaultToneCurve := tcurve }

/-- The curve taken as the default-constructed tone curve in the examples: the identity
curve through `(0, 0)` and `(1, 1)`, with gamma 1. -/
def identityToneCurve : c_ToneCurve :=
  { m_Smooth := true, m_IsGamma := false, m_Gamma := 1, m_Points := [(0, 0), (1, 1)] }

/-- The text functions used in the examples. -/
def stdText : TextFunctions := decimalText identityToneCurve

/-- Example settings: every section differs from a default-constructed one. -/
def exampleSettings : ProcessingSettings :=
  { normalization := { enabled := true, min := 1 / 10, max := 9 / 10 }
    LucyRichardson := { sigma := 13 / 10, iterations := 50, deringing := { enabled := true } }
    unsharpMasking :=
      { adaptive := true, sigma := 5 / 4, amountMin := 1, amountMax := 7 / 2,
        threshold := 1 / 100, width := 12345 / 1000000 }
    toneCurve :=
      { m_Smooth := false, m_IsGamma := true, m_Gamma := 22 / 10,
        m_Points := [(0, 0), (1 / 3, 1 / 2), (1, 1)] } }

/-! ### Notions used in the statements about settings files -/

/-- The parser of a recognised section returns `false` on the node. -/
def sectionFails (tf : TextFunctions) (node : wxXmlNode) : Bool :=
  if node.GetName = XmlName.lucyRichardson then (ParseLucyRichardsonSettings tf node).isNone
  else if node.GetName = XmlName.unshMask then (ParseUnsharpMaskingSettings tf node).isNone
  else if node.GetName = XmlName.tcurve then
    (ParseToneCurveSettings tf node tf.defaultToneCurve).isNone
  else if node.GetName = XmlName.normalization then (ParseNormalizationSetings tf node).isNone
  else false

/-- A text is one of the two boolean tokens. -/
def IsBoolToken (s : String) : Prop := s = "true" ∨ s = "false"

instance (s : String) : Decidable (IsBoolToken s) := by
  unfold IsBoolToken
  infer_instance

/-- A recognised section with a malformed value: a numeric attribute that does not parse, a
boolean attribute that is missing or is neither `"true"` nor `"false"`, a gamma-mode tone
curve without a parsable gamma, or a tone-curve point list that does not parse or has an odd
number of values. -/
def MalformedSection (tf : TextFunctions) (node : wxXmlNode) : Prop :=
  (node.GetName = "lucy-richardson" ∧
    (tf.Parse (node.GetAttribute "sigma") = none ∨
      tf.ToULong (node.GetAttribute "iterations") = none ∨
      ¬ IsBoolToken (node.GetAttribute "deringing"))) ∨
  (node.GetName = "unsharp_mask" ∧
    (¬ IsBoolToken (node.GetAttribute "adaptive") ∨
      tf.Parse (node.GetAttribute "sigma") = none ∨
      tf.Parse (node.GetAttribute "amount_min") = none ∨
      tf.Parse (node.GetAttribute "amount_max") = none ∨
      tf.Parse (node.GetAttribute "amount_threshold") = none ∨
      tf.Parse (node.GetAttribute "amount_width") = none)) ∨
  (node.GetName = "tone_curve" ∧
    (¬ IsBoolToken (node.GetAttribute "smooth") ∨
      ¬ IsBoolToken (node.GetAttribute "is_gamma") ∨
      (node.GetAttribute "is_gamma" = "true" ∧ tf.Parse (node.GetAttribute "gamma") = none) ∨
      tf.ParseList node.GetNodeContent ';' = none ∨
      (∃ values, tf.ParseList node.GetNodeContent ';' = some values ∧
        values.length % 2 = 1))) ∨
  (node.GetName = "normalization" ∧
    (¬ IsBoolToken (node.GetAttribute "enabled") ∨
      tf.Parse (node.GetAttribute "min") = none ∨
      tf.Parse (node.GetAttribute "max") = none))

/-- A node that, when it is one of the four recognised sections, is well-formed: its
boolean attributes are boolean tokens, its numeric attributes parse, a gamma-mode tone curve
has a gamma that parses, and the point list of a tone curve parses to an even number of
values that make at least 2 points. -/
def WellFormedSection (tf : TextFunctions) (node : wxXmlNode) : Prop :=
  (node.GetName = "lucy-richardson" →
    (tf.Parse (node.GetAttribute "sigma")).isSome ∧
      (tf.ToULong (node.GetAttribute "iterations")).isSome ∧
      IsBoolToken (node.GetAttribute "deringing")) ∧
  (node.GetName = "unsharp_mask" →
    IsBoolToken (node.GetAttribute "adaptive") ∧
      (tf.Parse (node.GetAttribute "sigma")).isSome ∧
      (tf.Parse (node.GetAttribute "amount_min")).isSome ∧
      (tf.Parse (node.GetAttribute "amount_max")).isSome ∧
      (tf.Parse (node.GetAttribute "amount_threshold")).isSome ∧
      (tf.Parse (node.GetAttribute "amount_width")).isSome) ∧
  (node.GetName = "tone_curve" →
    IsBoolToken (node.GetAttribute "smooth") ∧
      IsBoolToken (node.GetAttribute "is_gamma") ∧
      (node.GetAttribute "is_gamma" = "true" →
        (tf.Parse (node.GetAttribute "gamma")).isSome) ∧
      (∃ values, tf.ParseList node.GetNodeContent ';' = some values ∧
        values.length % 2 = 0 ∧ 2 ≤ values.length / 2)) ∧
  (node.GetName = "normalization" →
    IsBoolToken (node.GetAttribute "enabled") ∧
      (tf.Parse (node.GetAttribute "min")).isSome ∧
      (tf.Parse (node.GetAttribute "max")).isSome)

/-- The document has a section of the given name among the children of its root. -/
def hasSection (root : wxXmlNode) (name : String) : Bool :=
  root.GetChildren.any (fun child => child.GetName = name)

/-- The text content of a tone-curve section lists fewer than 2 control points: whenever
the list parses, it has fewer than 2 pairs of values. -/
def FewerThanTwoPoints (tf : TextFunctions) (node : wxXmlNode) : Prop :=
  ∀ values, tf.ParseList node.GetNodeContent ';' = some values → values.length / 2 < 2

/-! ### Example documents -/

/-- A well-formed lucy-richardson section. -/
def goodLucyRichardsonNode : wxXmlNode :=
  wxXmlNode.mk .wxXML_ELEMENT_NODE "lucy-richardson" ""
    [("sigma", "1.5000"), ("iterations", "30"), ("deringing", "true")] []

/-- A tone_curve section whose point list holds the single point `(0, 0)`. -/
def onePointToneCurveNode : wxXmlNode :=
  wxXmlNode.mk .wxXML_ELEMENT_NODE "tone_curve" ""
    [("smooth", "true"), ("is_gamma", "false")] [wxXmlNode.newText "0.0000;0.0000;"]

/-- A document with a well-formed section followed by a one-point tone curve. -/
def onePointDocument : wxXmlNode :=
  wxXmlNode.mk .wxXML_ELEMENT_NODE "imppg" "" [] [goodLucyRichardsonNode, onePointToneCurveNode]

/-- An unsharp_mask section whose `adaptive` attribute is not a boolean token. -/
def badUnsharpMaskNode : wxXmlNode :=
  wxXmlNode.mk .wxXML_ELEMENT_NODE "unsharp_mask" ""
    [("adaptive", "yes"), ("sigma", "1.3000"), ("amount_min", "1.0000"),
      ("amount_max", "2.0000"), ("amount_threshold", "0.0100"), ("amount_width", "0.1000")] []

/-- A document with a well-formed section followed by a malformed one. -/
def badUnsharpMaskDocument : wxXmlNode :=
  wxXmlNode.mk .wxXML_ELEMENT_NODE "imppg" "" [] [goodLucyRichardsonNode, badUnsharpMaskNode]

/-! ### Notions used in the statement about saving and loading -/

/-- The coordinates of a list of points: `x` then `y` of every point, in order. -/
def flattenPoints : List (ℚ × ℚ) → List ℚ
  | [] => []
  | p :: points => p.1 :: p.2 :: flattenPoints points

/-- A normalization section that is disabled, with the bounds of the example settings. -/
def disabledNormalizationNode : wxXmlNode :=
  wxXmlNode.mk .wxXML_ELEMENT_NODE "normalization" ""
    [("enabled", "false"), ("min", "0.1000"), ("max", "0.9000")] []

/-- A document whose only section is a normalization section. -/
def normalizationDocument : wxXmlNode :=
  wxXmlNode.mk .wxXML_ELEMENT_NODE "imppg" "" [] [disabledNormalizationNode]

/-- A document without sections. -/
def emptyDocument : wxXmlNode :=
  wxXmlNode.mk .wxXML_ELEMENT_NODE "imppg" "" [] []

/-- A document with a lucy-richardson section only. -/
def lucyRichardsonDocument : wxXmlNode :=
  wxXmlNode.mk .wxXML_ELEMENT_NODE "imppg" "" [] [goodLucyRichardsonNode]

/-- An image whose pixels in column 0 hold `3/4` and whose other pixels hold `1/4`. -/
def decreasingImage : c_Image :=
  { pixel := fun _ column => if column = 0 then 3 / 4 else 1 / 4 }

/-- The bounds `(minValue, maxValue)` of the histogram that `DetermineHistogram` returns. -/
def histogramBounds (round : ℚ → ℚ) (img : c_Image) (selection : wxRect) : Option (ℚ × ℚ) :=
  (DetermineHistogram round img selection).map (fun h => (h.minValue, h.maxValue))

/-! ### The step model of the alignment progress dialog and its worker -/

/-- Modelled from the spec: the worker thread `c_ImageAlignmentWorkerThread` (its header
`align_proc.h` is not among the sources), "on finish it clears its own registration in the
ExclusiveCell and terminates": it runs, posts its terminal event, then clears its handle. -/
inductive WorkerPhase where
  | notStarted
  | running
  | terminalPosted
  | retired
  deriving DecidableEq

/-- The point that the GUI thread has reached in the code of the dialog. -/
inductive DialogPc where
  /-- The dialog is constructed; `OnInit` has not run. -/
  | created
  /-- The modal event loop runs and no handler is active. -/
  | eventLoop
  /-- In `OnThreadEvent`, terminal branch, at `while (IsProcessingInProgress())`. -/
  | terminalWait (event : wxThreadEvent)
  /-- In `OnThreadEvent`, terminal branch, at the call of `wxMessageBox`. -/
  | terminalMessageBox (event : wxThreadEvent)
  /-- In `EndModal`, at `if (IsProcessingInProgress())`. -/
  | endModalCheck (retCode : Int)
  /-- In `EndModal`, at `if (lock.Get()) lock.Get()->AbortProcessing()`. -/
  | endModalAbort (retCode : Int)
  /-- In `EndModal`, at `while (IsProcessingInProgress())`. -/
  | endModalWait (retCode : Int)
  /-- In `EndModal`, at the call `wxDialog::EndModal(retCode)`. -/
  | baseEndModal (retCode : Int)
  /-- The modal loop has ended and `ShowModal` has returned. -/
  | closed
  deriving DecidableEq

/-- A state of a run of `AlignImages`: the dialog (`dlg.m_WorkerThread` is the cell that
holds the worker's handle), the point reached by the GUI thread, the phase of the worker,
whether `AbortProcessing` has been called, and the events posted and not yet handled. -/
structure AlignmentRun where
  dlg : c_ImageAlignmentProgress
  pc : DialogPc
  worker : WorkerPhase
  abortRequested : Bool
  pending : List wxThreadEvent
  deriving DecidableEq

/-- The steps of a run. -/
inductive RunAction where
  /-- The dialog handles `wxInitDialogEvent` (`OnInit`). -/
  | onInit
  /-- The worker posts an event that is not terminal. -/
  | workerPost (event : wxThreadEvent)
  /-- The worker posts its terminal event, `EID_COMPLETED` or `EID_ABORTED`. -/
  | workerTerminal (event : wxThreadEvent)
  /-- The worker clears its handle in `m_WorkerThread`. -/
  | workerRetire
  /-- The event loop passes the oldest pending event to `OnThreadEvent`. -/
  | dispatch
  /-- The user presses Cancel (or closes the window): `wxDialog` calls
  `EndModal(wxID_CANCEL)`. -/
  | cancelPressed
  /-- The GUI thread goes on in the handler it is in, up to the next point. -/
  | handlerStep
  deriving DecidableEq

/-- The event is one of the two terminal events. -/
def wxThreadEvent.isTerminal (event : wxThreadEvent) : Bool :=
  event.id = .EID_ABORTED || event.id = .EID_COMPLETED

/-- The method `IsProcessingInProgress`: `m_WorkerThread` holds a worker. -/
def c_ImageAlignmentProgress.IsProcessingInProgress (dlg : c_ImageAlignmentProgress) : Bool :=
  dlg.m_WorkerThread

/-- The state in which `AlignImages` has constructed the dialog. -/
def AlignmentRun.start (params : AlignmentParameters_t) : AlignmentRun :=
  { dlg := c_ImageAlignmentProgress.InitControls params
    pc := .created
    worker := .notStarted
    abortRequested := false
    pending := [] }

/-- One step of a run; `none` when the step cannot be taken in the state. -/
def AlignmentRun.step (s : AlignmentRun) : RunAction → Option AlignmentRun
  | .onInit =>
    if s.pc = .created then
      some { s with dlg := { s.dlg with m_WorkerThread := true }, worker := .running,
                    pc := .eventLoop }
    else none
  | .workerPost event =>
    if s.worker = .running ∧ event.isTerminal = false then
      some { s with pending := s.pending ++ [event] }
    else none
  | .workerTerminal event =>
    if s.worker = .running ∧ event.isTerminal = true then
      some { s with pending := s.pending ++ [event], worker := .terminalPosted }
    else none
  | .workerRetire =>
    if s.worker = .terminalPosted then
      some { s with dlg := { s.dlg with m_WorkerThread := false }, worker := .retired }
    else none
  | .dispatch =>
    if s.pc = .eventLoop then
      match s.pending with
      | [] => none
      | event :: rest =>
        if event.isTerminal then some { s with pending := rest, pc := .terminalWait event }
        else some { s with pending := rest, dlg := s.dlg.OnThreadEvent event }
    else none
  | .cancelPressed =>
    if s.pc = .eventLoop then some { s with pc := .endModalCheck wxID_CANCEL } else none
  | .handlerStep =>
    match s.pc with
    | .terminalWait event =>
      if s.dlg.IsProcessingInProgress then some s
      else some { s with pc := .terminalMessageBox event }
    | .terminalMessageBox event =>
      if event.id = .EID_ABORTED then some { s with pc := .endModalCheck wxID_CANCEL }
      else some { s with pc := .eventLoop }
    | .endModalCheck retCode =>
      if s.dlg.IsProcessingInProgress then some { s with pc := .endModalAbort retCode }
      else some { s with pc := .baseEndModal retCode }
    | .endModalAbort retCode =>
      if s.dlg.m_WorkerThread then
        some { s with abortRequested := true, pc := .endModalWait retCode }
      else some { s with pc := .endModalWait retCode }
    | .endModalWait retCode =>
      if s.dlg.IsProcessingInProgress then some s
      else some { s with pc := .baseEndModal retCode }
    | .baseEndModal retCode =>
      some { s with dlg := { s.dlg with endModalCode := some retCode }, pc := .closed }
    | _ => none

/-- The state after a sequence of steps; `none` when one of them cannot be taken. -/
def AlignmentRun.steps (s : AlignmentRun) : List RunAction → Option AlignmentRun
  | [] => some s
  | action :: actions =>
    match s.step action with
    | none => none
    | some s2 => s2.steps actions

/-- The function `AlignImages` on a run given by its steps: the value returned, `none` while
`ShowModal` has not returned (or when the steps are not a run). -/
def AlignImages (params : AlignmentParameters_t) (actions : List RunAction) : Option Bool :=
  match (AlignmentRun.start params).steps actions with
  | none => none
  | some s =>
    match s.dlg.endModalCode with
    | none => none
    | some result => some (decide (wxID_OK = result))

/-- The terminal event of the given identifier. -/
def terminalEvent (id : AlignmentEventId) (text : String) : wxThreadEvent :=
  { id := id, int := 0, string := text, payload := ⟨(0, 0), 0⟩ }

/-- A run in which the worker posts `EID_COMPLETED` and retires, the dialog handles the event
and shows the message box "Processing completed."; the dialog is still open. -/
def completedRun : List RunAction :=
  [.onInit, .workerTerminal (terminalEvent .EID_COMPLETED ""), .workerRetire, .dispatch,
    .handlerStep, .handlerStep]

/-- The run `completedRun`, after which the user closes the dialog with its Cancel button. -/
def completedThenCancelledRun : List RunAction :=
  completedRun ++ [.cancelPressed, .handlerStep, .handlerStep]

/-- A run in which the user presses Cancel while the worker runs; the worker posts
`EID_ABORTED` and retires while `EndModal` waits. -/
def abortedRun : List RunAction :=
  [.onInit, .cancelPressed, .handlerStep, .handlerStep, .handlerStep,
    .workerTerminal (terminalEvent .EID_ABORTED "Aborted per user request."),
    .handlerStep, .workerRetire, .handlerStep, .handlerStep]

/-- The cell holds no worker at the points that must be reached without one (the terminal
message box, the call `wxDialog::EndModal`, and after it), and a worker that `EndModal` waits
for has been told to abort. -/
def AlignmentRun.Safe (s : AlignmentRun) : Prop :=
  match s.pc with
  | .terminalMessageBox _ => s.dlg.m_WorkerThread = false
  | .baseEndModal _ => s.dlg.m_WorkerThread = false
  | .closed => s.dlg.m_WorkerThread = false
  | .endModalWait _ => s.dlg.m_WorkerThread = true → s.abortRequested = true
  | _ => True

/-- Every code that is on its way to `wxDialog::EndModal`, and the code passed to it, is
`wxID_CANCEL`. -/
def AlignmentRun.OnlyCancel (s : AlignmentRun) : Prop :=
  (s.dlg.endModalCode = none ∨ s.dlg.endModalCode = some wxID_CANCEL) ∧
  match s.pc with
  | .endModalCheck retCode => retCode = wxID_CANCEL
  | .endModalAbort retCode => retCode = wxID_CANCEL
  | .endModalWait retCode => retCode = wxID_CANCEL
  | .baseEndModal retCode => retCode = wxID_CANCEL
  | _ => True

/-- A run in which the dialog takes the terminal event while the worker is still registered,
waits, and reaches the message box after the worker has cleared its handle. -/
def waitingRun : List RunAction :=
  [.onInit, .workerTerminal (terminalEvent .EID_COMPLETED ""), .dispatch, .handlerStep,
    .workerRetire, .handlerStep]

/-! ### Rounding to `float` -/

/-- The position of the leading binary digit of `n` (0 for `n < 2`), found by halving at most
`fuel` times. -/
def leadingBit : Nat → Nat → Nat
  | 0, _ => 0
  | fuel + 1, n => if n < 2 then 0 else leadingBit fuel (n / 2) + 1

/-- The binary exponent of a non-zero number: the `e` with `2 ^ e ≤ |x| < 2 ^ (e + 1)`. -/
def floatExponent (x : ℚ) : Int :=
  let e : Int := (leadingBit x.num.natAbs x.num.natAbs : Int) - (leadingBit x.den x.den : Int)
  if |x| < (2 : ℚ) ^ e then e - 1 else e

/-- The integer nearest to `q`, the even one of the two when `q` lies half-way. -/
def roundHalfEven (q : ℚ) : Int :=
  if q - ⌊q⌋ < 1 / 2 then ⌊q⌋
  else if 1 / 2 < q - ⌊q⌋ then ⌊q⌋ + 1
  else if ⌊q⌋ % 2 = 0 then ⌊q⌋ else ⌊q⌋ + 1

/-- The spacing of the `float` values around `x`: 24 significant binary digits, and the
smallest exponent -126 (below it the values are the subnormal ones, spaced `2 ^ (-149)`). -/
def floatQuantum (x : ℚ) : ℚ :=
  (2 : ℚ) ^ (max (floatExponent x) (-126) - 23)

/-- The `float` (IEEE 754 binary32) nearest to the exact result `x`, ties going to the even
significand: the rounding that a `float` operation applies to its exact result.  A result
beyond `FLT_MAX` in magnitude (an infinity in the program) is not cut off here. -/
def roundFloat (x : ℚ) : ℚ :=
  if x = 0 then 0 else (roundHalfEven (x / floatQuantum x) : ℚ) * floatQuantum x

/-- The result of a `float` operation whose exact result is `x`: the nearest `float`, and
`none` when that is beyond `FLT_MAX` in magnitude (the operation gives an infinity). -/
def floatResult (x : ℚ) : Option ℚ :=
  if |roundFloat x| ≤ FLT_MAX then some (roundFloat x) else none

/-- An operation `op` on two `float` values: `round` gives its result from the exact one, and
a value that is not finite (`none`) is not followed. -/
def roundedOp (round : ℚ → Option ℚ) (op : ℚ → ℚ → ℚ) (x y : Option ℚ) : Option ℚ :=
  match x, y with
  | some x, some y => round (op x y)
  | _, _ => none

/-- The division of two `float` values; a division by 0 has no finite result. -/
def roundedDiv (round : ℚ → Option ℚ) (x y : Option ℚ) : Option ℚ :=
  match x, y with
  | some x, some y => if y = 0 then none else round (x / y)
  | _, _ => none

/-- The function `GetAdaptiveUnshMaskTransitionCurve` of common.cpp with the rounding of its
operations explicit: `round` gives the result of an operation from its exact result, and
`none` when there is no finite one.  The operations are those of the C++ expressions, in
their order of evaluation (`*`, `/` and `+` associate to the left).  The value is `none` when
an operation has no finite result or `divisor` is 0: the program goes on with infinities and
NaNs there, which are not followed. -/
def GetAdaptiveUnshMaskTransitionCurveRounded (round : ℚ → Option ℚ)
    (amountMin amountMax threshold width : ℚ) : Option CurveCoeffs :=
  let mul := roundedOp round (fun x y => x * y)
  let add := roundedOp round (fun x y => x + y)
  let sub := roundedOp round (fun x y => x - y)
  let div := roundedDiv round
  let amountMin : Option ℚ := some amountMin
  let amountMax : Option ℚ := some amountMax
  let threshold : Option ℚ := some threshold
  let width : Option ℚ := some width
  let divisor := mul (mul (mul (some 4) width) width) width
  let a := div (sub amountMin amountMax) divisor
  let b := div (mul (mul (some 3) (sub amountMax amountMin)) threshold) divisor
  let c := div (mul (mul (mul (some 3) (sub amountMax amountMin)) (sub width threshold))
    (add width threshold)) divisor
  let d := div (add (add
      (mul (mul (mul (mul (some 2) width) width) width) (add amountMin amountMax))
      (mul (mul (mul (mul (some 3) threshold) width) width) (sub amountMin amountMax)))
      (mul (mul (mul threshold threshold) threshold) (sub amountMax amountMin))) divisor
  match a, b, c, d with
  | some a, some b, some c, some d => some { a := a, b := b, c := c, d := d }
  | _, _, _, _ => none

/-! ## Theorems -/

/-! ### Adaptive unsharp-mask transition curve -/

/-- C1: for every `amountMin`, `amountMax`, `threshold` and every `width ≠ 0`, the cubic built
from the coefficients of `GetAdaptiveUnshMaskTransitionCurve` takes the value `amountMin` at
`threshold - width` and the value `amountMax` at `threshold + width`. -/
theorem transitionCurve_boundary (amountMin amountMax threshold width : ℚ) (hw : width ≠ 0) :
    (GetAdaptiveUnshMaskTransitionCurve amountMin amountMax threshold width).eval
        (threshold - width) = amountMin ∧
    (GetAdaptiveUnshMaskTransitionCurve amountMin amountMax threshold width).eval
        (threshold + width) = amountMax := by
  constructor
  · simp only [GetAdaptiveUnshMaskTransitionCurve, CurveCoeffs.eval]
    field_simp
    ring
  · simp only [GetAdaptiveUnshMaskTransitionCurve, CurveCoeffs.eval]
    field_simp
    ring

/-- Witness for C1 at `amountMin = 1`, `amountMax = 3`, `threshold = 1/2`, `width = 1/4`. -/
theorem transitionCurve_boundary_witness :
    ((1 / 4 : ℚ) ≠ 0) ∧
    (GetAdaptiveUnshMaskTransitionCurve 1 3 (1 / 2) (1 / 4)).eval (1 / 2 - 1 / 4) = 1 ∧
    (GetAdaptiveUnshMaskTransitionCurve 1 3 (1 / 2) (1 / 4)).eval (1 / 2 + 1 / 4) = 3 :=
  ⟨by norm_num, transitionCurve_boundary 1 3 (1 / 2) (1 / 4) (by norm_num)⟩

/-- The difference of two values of the cubic, factored: with `u = x - threshold` and
`v = y - threshold` the second factor is `3*width^2 - (u^2 + u*v + v^2)`. -/
theorem transitionCurve_sub (amountMin amountMax threshold width x y : ℚ) (hw : width ≠ 0) :
    transitionCurve amountMin amountMax threshold width y -
      transitionCurve amountMin amountMax threshold width x =
    (amountMax - amountMin) * (y - x) *
      (3 * width ^ 2 - ((x - threshold) ^ 2 + (x - threshold) * (y - threshold) +
        (y - threshold) ^ 2)) / (4 * width ^ 3) := by
  simp only [transitionCurve, GetAdaptiveUnshMaskTransitionCurve, CurveCoeffs.eval]
  field_simp
  ring

/-- C2 (as amended): in exact arithmetic, for `width > 0` and `amountMin < amountMax` the
cubic built from the coefficients of `GetAdaptiveUnshMaskTransitionCurve` is monotonically
non-decreasing on the transition interval `[threshold - width, threshold + width]`. -/
theorem transitionCurve_monotone (amountMin amountMax threshold width x y : ℚ)
    (hw : 0 < width) (hlt : amountMin < amountMax)
    (hx : threshold - width ≤ x) (hxy : x ≤ y) (hy : y ≤ threshold + width) :
    (GetAdaptiveUnshMaskTransitionCurve amountMin amountMax threshold width).eval x ≤
      (GetAdaptiveUnshMaskTransitionCurve amountMin amountMax threshold width).eval y := by
  have hsub := transitionCurve_sub amountMin amountMax threshold width x y (ne_of_gt hw)
  simp only [transitionCurve] at hsub
  rw [← sub_nonneg, hsub]
  have hu1 : -width ≤ x - threshold := by linarith
  have hu2 : x - threshold ≤ width := by linarith
  have hv1 : -width ≤ y - threshold := by linarith
  have hv2 : y - threshold ≤ width := by linarith
  have huu : (x - threshold) ^ 2 ≤ width ^ 2 := by nlinarith
  have hvv : (y - threshold) ^ 2 ≤ width ^ 2 := by nlinarith
  have huv : (x - threshold) * (y - threshold) ≤ width ^ 2 := by nlinarith
  have hbr : 0 ≤ 3 * width ^ 2 - ((x - threshold) ^ 2 + (x - threshold) * (y - threshold) +
      (y - threshold) ^ 2) := by linarith
  have hd : 0 < 4 * width ^ 3 := by positivity
  apply div_nonneg _ hd.le
  apply mul_nonneg (mul_nonneg _ _) hbr
  · linarith
  · linarith

/-- Witness for C2 (as amended): `amountMin = 1`, `amountMax = 3`, `threshold = 1/2`,
`width = 1/4`, `x = 2/5`, `y = 3/5`. -/
theorem transitionCurve_monotone_witness :
    (GetAdaptiveUnshMaskTransitionCurve 1 3 (1 / 2) (1 / 4)).eval (2 / 5) ≤
      (GetAdaptiveUnshMaskTransitionCurve 1 3 (1 / 2) (1 / 4)).eval (3 / 5) :=
  transitionCurve_monotone 1 3 (1 / 2) (1 / 4) (2 / 5) (3 / 5)
    (by norm_num) (by norm_num) (by norm_num) (by norm_num) (by norm_num)

/-- With no rounding and a non-zero width, the function with explicit rounding returns the
coefficients of the function in exact arithmetic. -/
theorem getAdaptiveUnshMaskTransitionCurveRounded_exact
    (amountMin amountMax threshold width : ℚ) (hw : width ≠ 0) :
    GetAdaptiveUnshMaskTransitionCurveRounded some amountMin amountMax threshold width =
      some (GetAdaptiveUnshMaskTransitionCurve amountMin amountMax threshold width) := by
  simp [GetAdaptiveUnshMaskTransitionCurveRounded, GetAdaptiveUnshMaskTransitionCurve,
    roundedOp, roundedDiv, hw]

/-- Counterexample to C2 as stated: in `float` arithmetic, for `amountMin = 1`,
`amountMax = 10`, `threshold = 0.7f` and `width = 0.05f` the function returns the
coefficients `a = -18000`, `b = 9676799/256`, `c = -13478399/512`, `d = 12462079/2048`, and
the cubic built from them decreases inside the transition interval: between the `float`
values `x = 10905191 / 2^24` and `y = 10905199 / 2^24`, and between `threshold - width` and
`threshold - width + 2^(-20)`. -/
theorem transitionCurve_monotone_counterexample :
    roundFloat 1 = 1 ∧ roundFloat 10 = 10 ∧
    (0 : ℚ) < roundFloat (1 / 20) ∧ (1 : ℚ) < 10 ∧
    roundFloat (10905191 / 16777216) = 10905191 / 16777216 ∧
    roundFloat (10905199 / 16777216) = 10905199 / 16777216 ∧
    roundFloat (7 / 10) - roundFloat (1 / 20) ≤ 10905191 / 16777216 ∧
    (10905191 / 16777216 : ℚ) ≤ 10905199 / 16777216 ∧
    (10905199 / 16777216 : ℚ) ≤ roundFloat (7 / 10) + roundFloat (1 / 20) ∧
    roundFloat (7 / 10) - roundFloat (1 / 20) + 1 / 2 ^ 20 ≤
      roundFloat (7 / 10) + roundFloat (1 / 20) ∧
    ∃ k, GetAdaptiveUnshMaskTransitionCurveRounded floatResult 1 10 (roundFloat (7 / 10))
        (roundFloat (1 / 20)) = some k ∧
      k = { a := -18000, b := 9676799 / 256, c := -13478399 / 512, d := 12462079 / 2048 } ∧
      k.eval (10905199 / 16777216) < k.eval (10905191 / 16777216) ∧
      k.eval (roundFloat (7 / 10) - roundFloat (1 / 20) + 1 / 2 ^ 20) <
        k.eval (roundFloat (7 / 10) - roundFloat (1 / 20)) :=
  ⟨by decide!, by decide!, by decide!, by decide!, by decide!, by decide!, by decide!,
    by decide!, by decide!, by decide!,
    { a := -18000, b := 9676799 / 256, c := -13478399 / 512, d := 12462079 / 2048 },
    by decide!, rfl, by decide!, by decide!⟩

/-- The `float` operations of the function overflow for `width = 1e13f`: the cube of the
width is beyond `FLT_MAX`, and no finite coefficients result. -/
theorem getAdaptiveUnshMaskTransitionCurveRounded_overflow :
    GetAdaptiveUnshMaskTransitionCurveRounded floatResult 1 10 (roundFloat (7 / 10))
      (roundFloat 10000000000000) = none := by
  decide!

/-! ### `IsEffective` -/

/-- C4: `IsEffective` is false exactly when (not adaptive and `amountMax = 1`) or (adaptive and
`amountMin = 1` and `amountMax = 1`); in non-adaptive mode the result is the same for any two
values of `amountMin`; default-constructed settings are not effective. -/
theorem isEffective_false_iff :
    (∀ u : UnsharpMaskingSettings, u.IsEffective = false ↔
      ((u.adaptive = false ∧ u.amountMax = 1) ∨
        (u.adaptive = true ∧ u.amountMin = 1 ∧ u.amountMax = 1))) ∧
    (∀ sigma amountMin amountMin2 amountMax threshold width : ℚ,
      UnsharpMaskingSettings.IsEffective
        { adaptive := false, sigma := sigma, amountMin := amountMin, amountMax := amountMax,
          threshold := threshold, width := width } =
      UnsharpMaskingSettings.IsEffective
        { adaptive := false, sigma := sigma, amountMin := amountMin2, amountMax := amountMax,
          threshold := threshold, width := width }) ∧
    (∀ sigma threshold width : ℚ,
      (UnsharpMaskingSettings.defaultConstructed sigma threshold width).IsEffective = false) := by
  refine ⟨?_, ?_, ?_⟩
  · intro u
    cases hu : u.adaptive <;> simp [UnsharpMaskingSettings.IsEffective, hu]
  · intro sigma amountMin amountMin2 amountMax threshold width
    simp [UnsharpMaskingSettings.IsEffective]
  · intro sigma threshold width
    simp [UnsharpMaskingSettings.IsEffective, UnsharpMaskingSettings.defaultConstructed]

/-! ### Rounding to `float` -/

/-- With enough fuel, `leadingBit` finds the leading binary digit of a positive number. -/
theorem leadingBit_spec : ∀ fuel n : Nat, 0 < n → n < 2 ^ fuel →
    2 ^ leadingBit fuel n ≤ n ∧ n < 2 ^ (leadingBit fuel n + 1)
  | 0, n, h0, h => by
    simp only [pow_zero] at h
    omega
  | fuel + 1, n, h0, h => by
    unfold leadingBit
    by_cases h2 : n < 2
    · rw [if_pos h2]
      simp only [pow_zero, zero_add, pow_one]
      omega
    · rw [if_neg h2]
      have ih := leadingBit_spec fuel (n / 2) (by omega) (by rw [pow_succ] at h; omega)
      rw [pow_succ, pow_succ]
      rw [pow_succ] at ih
      omega

/-- The leading binary digit of a positive number `n`, with fuel `n`. -/
theorem leadingBit_self (n : Nat) (h0 : 0 < n) :
    2 ^ leadingBit n n ≤ n ∧ n < 2 ^ (leadingBit n n + 1) :=
  leadingBit_spec n n h0 (Nat.lt_two_pow n)

/-- The binary exponent of a non-zero number brackets its magnitude. -/
theorem floatExponent_spec (x : ℚ) (hx : x ≠ 0) :
    (2 : ℚ) ^ floatExponent x ≤ |x| ∧ |x| < (2 : ℚ) ^ (floatExponent x + 1) := by
  have hnum : 0 < x.num.natAbs := Int.natAbs_pos.mpr (Rat.num_ne_zero.mpr hx)
  have hden : 0 < x.den := x.den_pos
  obtain ⟨ha1, ha2⟩ := leadingBit_self _ hnum
  obtain ⟨hb1, hb2⟩ := leadingBit_self _ hden
  have habs : |x| = (x.num.natAbs : ℚ) / (x.den : ℚ) := by
    conv_lhs => rw [← Rat.num_div_den x]
    rw [abs_div, Nat.abs_cast, Nat.cast_natAbs, Int.cast_abs]
  have ha1q : (2 : ℚ) ^ leadingBit x.num.natAbs x.num.natAbs ≤ (x.num.natAbs : ℚ) := by
    exact_mod_cast ha1
  have ha2q : (x.num.natAbs : ℚ) < (2 : ℚ) ^ (leadingBit x.num.natAbs x.num.natAbs + 1) := by
    exact_mod_cast ha2
  have hb1q : (2 : ℚ) ^ leadingBit x.den x.den ≤ (x.den : ℚ) := by
    exact_mod_cast hb1
  have hb2q : (x.den : ℚ) < (2 : ℚ) ^ (leadingBit x.den x.den + 1) := by
    exact_mod_cast hb2
  have hdq : (0 : ℚ) < x.den := by exact_mod_cast hden
  have h2 : (2 : ℚ) ≠ 0 := by norm_num
  have hsub : (2 : ℚ) ^ ((leadingBit x.num.natAbs x.num.natAbs : Int) -
      (leadingBit x.den x.den : Int)) =
      (2 : ℚ) ^ leadingBit x.num.natAbs x.num.natAbs / (2 : ℚ) ^ leadingBit x.den x.den := by
    rw [zpow_sub₀ h2, zpow_natCast, zpow_natCast]
  unfold floatExponent
  simp only
  split_ifs with hlt
  · refine ⟨?_, by rwa [sub_add_cancel]⟩
    rw [zpow_sub_one₀ h2, hsub, habs, div_eq_mul_inv, div_eq_mul_inv, mul_assoc, ← mul_inv,
      ← div_eq_mul_inv, ← div_eq_mul_inv, ← pow_succ]
    exact div_le_div₀ (by positivity) ha1q hdq hb2q.le
  · refine ⟨not_lt.mp hlt, ?_⟩
    rw [zpow_add_one₀ h2, hsub, habs, div_mul_eq_mul_div, ← pow_succ]
    exact div_lt_div₀ ha2q hb1q (by positivity) (by positivity)

/-- Rounding to the nearest integer does not go below the floor. -/
theorem roundHalfEven_ge_floor (q : ℚ) : ⌊q⌋ ≤ roundHalfEven q := by
  unfold roundHalfEven
  split_ifs <;> omega

/-- Rounding to the nearest integer does not go above the floor plus one. -/
theorem roundHalfEven_le_floor_add_one (q : ℚ) : roundHalfEven q ≤ ⌊q⌋ + 1 := by
  unfold roundHalfEven
  split_ifs <;> omega

/-- An integer is rounded to itself. -/
theorem roundHalfEven_intCast (n : Int) : roundHalfEven (n : ℚ) = n := by
  unfold roundHalfEven
  simp

/-- Rounding to the nearest integer is monotone. -/
theorem roundHalfEven_mono {p q : ℚ} (h : p ≤ q) : roundHalfEven p ≤ roundHalfEven q := by
  rcases (Int.floor_mono h).lt_or_eq with hlt | heq
  · calc roundHalfEven p ≤ ⌊p⌋ + 1 := roundHalfEven_le_floor_add_one p
      _ ≤ ⌊q⌋ := hlt
      _ ≤ roundHalfEven q := roundHalfEven_ge_floor q
  · have hfr : p - ⌊p⌋ ≤ q - ⌊p⌋ := by linarith
    unfold roundHalfEven
    rw [← heq]
    split_ifs <;> first | omega | (exfalso; linarith)

/-- A number below an integer is not rounded above it. -/
theorem roundHalfEven_le_of_le {q : ℚ} {n : Int} (h : q ≤ n) : roundHalfEven q ≤ n := by
  have := roundHalfEven_mono h
  rwa [roundHalfEven_intCast] at this

/-- A number above an integer is not rounded below it. -/
theorem roundHalfEven_ge_of_ge {q : ℚ} {n : Int} (h : (n : ℚ) ≤ q) : n ≤ roundHalfEven q := by
  have := roundHalfEven_mono h
  rwa [roundHalfEven_intCast] at this

/-- The spacing of the `float` values is positive. -/
theorem floatQuantum_pos (x : ℚ) : 0 < floatQuantum x := by
  unfold floatQuantum
  positivity

/-- The binary exponent is monotone in the magnitude. -/
theorem floatExponent_mono {x y : ℚ} (hx : x ≠ 0) (hxy : |x| ≤ |y|) :
    floatExponent x ≤ floatExponent y := by
  have hy : y ≠ 0 := by
    intro h
    rw [h, abs_zero] at hxy
    exact hx (abs_eq_zero.mp (le_antisymm hxy (abs_nonneg x)))
  obtain ⟨h1, -⟩ := floatExponent_spec x hx
  obtain ⟨-, h2⟩ := floatExponent_spec y hy
  have h3 : (2 : ℚ) ^ floatExponent x < (2 : ℚ) ^ (floatExponent y + 1) := by linarith
  have h4 := (zpow_lt_zpow_iff_right₀ (by norm_num : (1 : ℚ) < 2)).mp h3
  omega

/-- The rounding to `float` as a multiple of the spacing, zero included. -/
theorem roundFloat_eq (x : ℚ) :
    roundFloat x = (roundHalfEven (x / floatQuantum x) : ℚ) * floatQuantum x := by
  unfold roundFloat
  split_ifs with h
  · rw [h, zero_div]
    have := roundHalfEven_intCast 0
    simp only [Int.cast_zero] at this
    rw [this]
    simp
  · rfl

/-- A non-negative number is rounded to a non-negative `float`. -/
theorem roundFloat_nonneg {x : ℚ} (hx : 0 ≤ x) : 0 ≤ roundFloat x := by
  rw [roundFloat_eq]
  have hq := floatQuantum_pos x
  have h : ((0 : Int) : ℚ) ≤ x / floatQuantum x := by
    rw [Int.cast_zero]
    positivity
  have := roundHalfEven_ge_of_ge h
  have h2 : (0 : ℚ) ≤ (roundHalfEven (x / floatQuantum x) : ℚ) := by exact_mod_cast this
  positivity

/-- A non-positive number is rounded to a non-positive `float`. -/
theorem roundFloat_nonpos {x : ℚ} (hx : x ≤ 0) : roundFloat x ≤ 0 := by
  rw [roundFloat_eq]
  have hq := floatQuantum_pos x
  have h : x / floatQuantum x ≤ ((0 : Int) : ℚ) := by
    rw [Int.cast_zero]
    exact div_nonpos_of_nonpos_of_nonneg hx hq.le
  have := roundHalfEven_le_of_le h
  have h2 : (roundHalfEven (x / floatQuantum x) : ℚ) ≤ 0 := by exact_mod_cast this
  exact mul_nonpos_of_nonpos_of_nonneg h2 hq.le

/-- The `2 ^ 24` multiple of the spacing is the next power of two. -/
theorem floatQuantum_mul_upper (x : ℚ) :
    (2 : ℚ) ^ (24 : Nat) * floatQuantum x = (2 : ℚ) ^ (max (floatExponent x) (-126) + 1) := by
  unfold floatQuantum
  rw [← zpow_natCast, ← zpow_add₀ (by norm_num : (2 : ℚ) ≠ 0)]
  congr 1
  push_cast
  ring

/-- The `2 ^ 23` multiple of the spacing is the power of two of the exponent. -/
theorem floatQuantum_mul_lower (x : ℚ) :
    (2 : ℚ) ^ (23 : Nat) * floatQuantum x = (2 : ℚ) ^ max (floatExponent x) (-126) := by
  unfold floatQuantum
  rw [← zpow_natCast, ← zpow_add₀ (by norm_num : (2 : ℚ) ≠ 0)]
  congr 1
  push_cast
  ring

/-- A non-zero number is below the next power of two in magnitude. -/
theorem abs_lt_floatUpper (x : ℚ) (hx : x ≠ 0) :
    |x| < (2 : ℚ) ^ (max (floatExponent x) (-126) + 1) := by
  obtain ⟨-, h2⟩ := floatExponent_spec x hx
  refine lt_of_lt_of_le h2 ?_
  exact zpow_le_zpow_right₀ (by norm_num) (by omega)

/-- A number is not rounded above the next power of two. -/
theorem roundFloat_le_upper {x : ℚ} (hx : x ≠ 0) :
    roundFloat x ≤ (2 : ℚ) ^ (max (floatExponent x) (-126) + 1) := by
  rw [roundFloat_eq, ← floatQuantum_mul_upper]
  have hq := floatQuantum_pos x
  have h1 : x / floatQuantum x ≤ (((2 : Int) ^ (24 : Nat) : Int) : ℚ) := by
    rw [div_le_iff₀ hq]
    rw [Int.cast_pow, Int.cast_ofNat, floatQuantum_mul_upper]
    exact (le_abs_self x).trans (abs_lt_floatUpper x hx).le
  have h2 := roundHalfEven_le_of_le h1
  have h3 : (roundHalfEven (x / floatQuantum x) : ℚ) ≤ (2 : ℚ) ^ (24 : Nat) := by
    exact_mod_cast h2
  exact mul_le_mul_of_nonneg_right h3 hq.le

/-- A number is not rounded below the negated next power of two. -/
theorem roundFloat_ge_upper {x : ℚ} (hx : x ≠ 0) :
    -(2 : ℚ) ^ (max (floatExponent x) (-126) + 1) ≤ roundFloat x := by
  rw [roundFloat_eq, ← floatQuantum_mul_upper, ← neg_mul]
  have hq := floatQuantum_pos x
  have h1 : (((-(2 : Int) ^ (24 : Nat)) : Int) : ℚ) ≤ x / floatQuantum x := by
    rw [le_div_iff₀ hq]
    rw [Int.cast_neg, Int.cast_pow, Int.cast_ofNat, neg_mul, floatQuantum_mul_upper]
    exact (neg_le_neg (abs_lt_floatUpper x hx).le).trans (neg_abs_le x)
  have h2 := roundHalfEven_ge_of_ge h1
  have h3 : -(2 : ℚ) ^ (24 : Nat) ≤ (roundHalfEven (x / floatQuantum x) : ℚ) := by
    exact_mod_cast h2
  exact mul_le_mul_of_nonneg_right h3 hq.le

/-- A positive normal number is not rounded below the power of two of its exponent. -/
theorem roundFloat_ge_lower {x : ℚ} (hx : 0 < x) (he : -126 ≤ floatExponent x) :
    (2 : ℚ) ^ max (floatExponent x) (-126) ≤ roundFloat x := by
  rw [roundFloat_eq, ← floatQuantum_mul_lower]
  have hq := floatQuantum_pos x
  obtain ⟨h0, -⟩ := floatExponent_spec x hx.ne.symm
  rw [abs_of_pos hx] at h0
  have h1 : ((((2 : Int) ^ (23 : Nat)) : Int) : ℚ) ≤ x / floatQuantum x := by
    rw [le_div_iff₀ hq]
    rw [Int.cast_pow, Int.cast_ofNat, floatQuantum_mul_lower, max_eq_left he]
    exact h0
  have h2 := roundHalfEven_ge_of_ge h1
  have h3 : (2 : ℚ) ^ (23 : Nat) ≤ (roundHalfEven (x / floatQuantum x) : ℚ) := by
    exact_mod_cast h2
  exact mul_le_mul_of_nonneg_right h3 hq.le

/-- A negative normal number is not rounded above the negated power of two of its
exponent. -/
theorem roundFloat_le_lower {x : ℚ} (hx : x < 0) (he : -126 ≤ floatExponent x) :
    roundFloat x ≤ -(2 : ℚ) ^ max (floatExponent x) (-126) := by
  rw [roundFloat_eq, ← floatQuantum_mul_lower, ← neg_mul]
  have hq := floatQuantum_pos x
  obtain ⟨h0, -⟩ := floatExponent_spec x hx.ne
  rw [abs_of_neg hx] at h0
  have h1 : x / floatQuantum x ≤ (((-(2 : Int) ^ (23 : Nat)) : Int) : ℚ) := by
    rw [div_le_iff₀ hq]
    rw [Int.cast_neg, Int.cast_pow, Int.cast_ofNat, neg_mul, floatQuantum_mul_lower,
      max_eq_left he]
    linarith
  have h2 := roundHalfEven_le_of_le h1
  have h3 : (roundHalfEven (x / floatQuantum x) : ℚ) ≤ -(2 : ℚ) ^ (23 : Nat) := by
    exact_mod_cast h2
  exact mul_le_mul_of_nonneg_right h3 hq.le

/-- Rounding to `float` is monotone. -/
theorem roundFloat_monotone : Monotone roundFloat := by
  intro x y hxy
  rcases lt_trichotomy x 0 with hx | hx | hx
  · rcases lt_or_le y 0 with hy | hy
    · -- both negative: |y| ≤ |x|
      have habs : |y| ≤ |x| := by
        rw [abs_of_neg hx, abs_of_neg hy]
        linarith
      have he := floatExponent_mono hy.ne habs
      rcases (max_le_max_right (-126) he).lt_or_eq with hlt | heq
      · have hex : -126 ≤ floatExponent x := by
          by_contra hc
          rw [max_eq_right (by omega : floatExponent x ≤ -126)] at hlt
          have := le_max_right (floatExponent y) (-126)
          omega
        calc roundFloat x ≤ -(2 : ℚ) ^ max (floatExponent x) (-126) := roundFloat_le_lower hx hex
          _ ≤ -(2 : ℚ) ^ (max (floatExponent y) (-126) + 1) :=
            neg_le_neg (zpow_le_zpow_right₀ (by norm_num) (by omega))
          _ ≤ roundFloat y := roundFloat_ge_upper hy.ne
      · have hq : floatQuantum y = floatQuantum x := by
          unfold floatQuantum
          rw [heq]
        rw [roundFloat_eq x, roundFloat_eq y, hq]
        have hqp := floatQuantum_pos x
        have hm := roundHalfEven_mono (div_le_div_of_nonneg_right hxy hqp.le)
        have hm2 : (roundHalfEven (x / floatQuantum x) : ℚ) ≤
            (roundHalfEven (y / floatQuantum x) : ℚ) := by exact_mod_cast hm
        exact mul_le_mul_of_nonneg_right hm2 hqp.le
    · exact (roundFloat_nonpos hx.le).trans (roundFloat_nonneg hy)
  · rw [hx] at hxy ⊢
    have : roundFloat 0 = 0 := by simp [roundFloat]
    rw [this]
    exact roundFloat_nonneg hxy
  · have hy : 0 < y := lt_of_lt_of_le hx hxy
    have habs : |x| ≤ |y| := by
      rw [abs_of_pos hx, abs_of_pos hy]
      exact hxy
    have he := floatExponent_mono hx.ne.symm habs
    rcases (max_le_max_right (-126) he).lt_or_eq with hlt | heq
    · have hey : -126 ≤ floatExponent y := by
        by_contra hc
        rw [max_eq_right (by omega : floatExponent y ≤ -126)] at hlt
        have := le_max_right (floatExponent x) (-126)
        omega
      calc roundFloat x ≤ (2 : ℚ) ^ (max (floatExponent x) (-126) + 1) :=
            roundFloat_le_upper hx.ne.symm
        _ ≤ (2 : ℚ) ^ max (floatExponent y) (-126) :=
            zpow_le_zpow_right₀ (by norm_num) (by omega)
        _ ≤ roundFloat y := roundFloat_ge_lower hy hey
    · have hq : floatQuantum x = floatQuantum y := by
        unfold floatQuantum
        rw [heq]
      rw [roundFloat_eq x, roundFloat_eq y, hq]
      have hqp := floatQuantum_pos y
      have hm := roundHalfEven_mono (div_le_div_of_nonneg_right hxy hqp.le)
      have hm2 : (roundHalfEven (x / floatQuantum y) : ℚ) ≤
          (roundHalfEven (y / floatQuantum y) : ℚ) := by exact_mod_cast hm
      exact mul_le_mul_of_nonneg_right hm2 hqp.le

/-! ### `DetermineHistogram` -/

theorem incrementAt_length (vs : List Nat) (i : Nat) :
    (incrementAt vs i).length = vs.length := by
  induction vs generalizing i with
  | nil => rfl
  | cons v vs ih =>
    cases i with
    | zero => rfl
    | succ i => simp [incrementAt, ih]

theorem incrementAt_set (vs : List Nat) (k c : Nat) (hk : k < vs.length) :
    incrementAt (vs.set k c) k = vs.set k (c + 1) := by
  induction vs generalizing k with
  | nil => simp at hk
  | cons v vs ih =>
    cases k with
    | zero => simp [incrementAt]
    | succ k =>
      simp only [List.length_cons, Nat.add_lt_add_iff_right] at hk
      simp [incrementAt, ih k hk]

theorem iterate_incrementAt_set (vs : List Nat) (k c n : Nat) (hk : k < vs.length) :
    (fun l => incrementAt l k)^[n] (vs.set k c) = vs.set k (c + n) := by
  induction n generalizing c with
  | zero => simp
  | succ n ih =>
    rw [Function.iterate_succ_apply, incrementAt_set vs k c hk, ih (c + 1)]
    congr 1
    omega

theorem replicate_zero_set (n k : Nat) :
    (List.replicate n 0).set k 0 = List.replicate n 0 := by
  induction n generalizing k with
  | zero => simp
  | succ n ih =>
    cases k with
    | zero => simp [List.replicate_succ]
    | succ k => simp [List.replicate_succ, ih]

theorem foldl_maxCount_replicate_set (n k c m : Nat) (hk : k < n) :
    ((List.replicate n 0).set k c).foldl (fun maxCount v => if v > maxCount then v else maxCount) m
      = max m c := by
  induction n generalizing k m with
  | zero => omega
  | succ n ih =>
    cases k with
    | zero =>
      simp only [List.replicate_succ, List.set_cons_zero, List.foldl_cons]
      have hrep : ∀ (j : Nat) (a : Nat), (List.replicate j 0).foldl
          (fun maxCount v => if v > maxCount then v else maxCount) a = a := by
        intro j
        induction j with
        | zero => intro a; rfl
        | succ j ihj => intro a; simp [List.replicate_succ, ihj]
      rw [hrep]
      split <;> omega
    | succ k =>
      simp only [List.replicate_succ, List.set_cons_succ, List.foldl_cons]
      rw [ih k _ (by omega)]
      simp

theorem histogramMaxCount_replicate_set (n k c : Nat) (hk : k < n) :
    histogramMaxCount ((List.replicate n 0).set k c) = c := by
  unfold histogramMaxCount
  rw [foldl_maxCount_replicate_set n k c 0 hk]
  simp

/-- A fold whose every step succeeds and maps the bin counts by `F` succeeds and maps the
bin counts by the iterate of `F`. -/
theorem foldlM_values {α : Type} (F : List Nat → List Nat)
    (f : Histogram → α → Option Histogram) (l : List α)
    (hstep : ∀ a ∈ l, ∀ h, ∃ h2, f h a = some h2 ∧ h2.values = F h.values)
    (h : Histogram) :
    ∃ h2, l.foldlM f h = some h2 ∧ h2.values = F^[l.length] h.values := by
  induction l generalizing h with
  | nil => exact ⟨h, rfl, rfl⟩
  | cons a l ih =>
    obtain ⟨h1, hf, hv⟩ := hstep a (List.mem_cons_self a l) h
    obtain ⟨h2, hfold, hv2⟩ := ih (fun b hb => hstep b (List.mem_cons_of_mem a hb)) h1
    refine ⟨h2, ?_, ?_⟩
    · simp [List.foldlM, hf, hfold]
    · rw [hv2, hv, List.length_cons, Function.iterate_succ_apply]

/-- The bin of a pixel value in `[0, 1]`: the conversion is defined and the bin is in range. -/
theorem castUnsigned_bin (round : ℚ → ℚ) (v : ℚ) (hmono : Monotone round)
    (h0 : round 0 = 0) (h1023 : round 1023 = 1023) (hv0 : 0 ≤ v) (hv1 : v ≤ 1) :
    castUnsigned (round (v * ((NUM_HISTOGRAM_BINS : ℚ) - 1))) =
      some ⌊round (v * 1023)⌋.toNat ∧ ⌊round (v * 1023)⌋.toNat < NUM_HISTOGRAM_BINS := by
  have hc : ((NUM_HISTOGRAM_BINS : ℚ) - 1) = 1023 := by norm_num [NUM_HISTOGRAM_BINS]
  rw [hc]
  have hlo : 0 ≤ round (v * 1023) := by
    have hm := hmono (show (0 : ℚ) ≤ v * 1023 by positivity)
    rwa [h0] at hm
  have hhi : round (v * 1023) ≤ 1023 := by
    have hm := hmono (show v * 1023 ≤ (1023 : ℚ) by linarith)
    rwa [h1023] at hm
  have hfl0 : 0 ≤ ⌊round (v * 1023)⌋ := Int.floor_nonneg.mpr hlo
  have hfl1 : ⌊round (v * 1023)⌋ ≤ 1023 := by
    have : ⌊round (v * 1023)⌋ ≤ ⌊(1023 : ℚ)⌋ := Int.floor_mono hhi
    simpa using this
  constructor
  · unfold castUnsigned
    simp only [hlo, if_true]
    rw [if_pos ⟨hfl0, by omega⟩]
  · unfold NUM_HISTOGRAM_BINS
    omega


/-- One pixel of value `v` in `[0, 1]`: the assertion holds and the count of the bin of `v`
grows by one. -/
theorem histogramPixel_values (round : ℚ → ℚ) (v : ℚ) (hmono : Monotone round)
    (h0 : round 0 = 0) (h1023 : round 1023 = 1023) (hv0 : 0 ≤ v) (hv1 : v ≤ 1)
    (h : Histogram) :
    ∃ h2, histogramPixel round h v = some h2 ∧
      h2.values = incrementAt h.values ⌊round (v * 1023)⌋.toNat := by
  obtain ⟨hcast, hlt⟩ := castUnsigned_bin round v hmono h0 h1023 hv0 hv1
  unfold histogramPixel
  simp only [hcast, hlt, if_true]
  split_ifs <;> exact ⟨_, rfl, rfl⟩

/-- C3 (as amended): for an image and a selection whose pixels all hold the same value `v`
with `0 ≤ v ≤ 1`, `DetermineHistogram` returns a histogram of 1024 bins in which the bin
`floor(p)`, where `p` is the product `v*1023` as rounded to `float`, holds the selection's
pixel count, every other bin holds 0, and `maxCount` is the selection's pixel count; the
pixel count is `width * height` for a selection of non-negative width and height.  The bin
is `floor(v*1023)` when the product is not changed by the rounding, and it is `floor(v*1023)`
or the bin above when the rounding fixes the integers up to 1023. -/
theorem determineHistogram_uniform (round : ℚ → ℚ) (img : c_Image) (selection : wxRect)
    (v : ℚ) (hmono : Monotone round) (h0 : round 0 = 0) (h1023 : round 1023 = 1023)
    (hv0 : 0 ≤ v) (hv1 : v ≤ 1)
    (hpix : ∀ y x : Nat, (y : Int) < selection.height → (x : Int) < selection.width →
      img.pixel (selection.y + y) (selection.x + x) = v) :
    ∃ h, DetermineHistogram round img selection = some h ∧
      h.values.length = NUM_HISTOGRAM_BINS ∧
      ⌊round (v * 1023)⌋.toNat < NUM_HISTOGRAM_BINS ∧
      (∀ i, i < NUM_HISTOGRAM_BINS → h.values[i]? =
        some (if i = ⌊round (v * 1023)⌋.toNat then selection.pixelCount else 0)) ∧
      h.maxCount = selection.pixelCount ∧
      (0 ≤ selection.width → 0 ≤ selection.height →
        (selection.pixelCount : Int) = selection.width * selection.height) ∧
      (round (v * 1023) = v * 1023 → ⌊round (v * 1023)⌋.toNat = ⌊v * 1023⌋.toNat) ∧
      ((∀ n : Nat, n ≤ 1023 → round n = n) →
        ⌊v * 1023⌋.toNat ≤ ⌊round (v * 1023)⌋.toNat ∧
        ⌊round (v * 1023)⌋.toNat ≤ ⌊v * 1023⌋.toNat + 1) := by
  obtain ⟨-, hlt⟩ := castUnsigned_bin round v hmono h0 h1023 hv0 hv1
  have hrow : ∀ y ∈ List.range selection.height.toNat, ∀ h, ∃ h2,
      histogramRow round img selection h y = some h2 ∧
      h2.values = (fun l => incrementAt l ⌊round (v * 1023)⌋.toNat)^[selection.width.toNat]
        h.values := by
    intro y hy h
    have hy2 : (y : Int) < selection.height := Int.lt_toNat.mp (List.mem_range.mp hy)
    have hfold := foldlM_values (fun l => incrementAt l ⌊round (v * 1023)⌋.toNat)
      (fun h (x : Nat) =>
        histogramPixel round h (img.pixel (selection.y + y) (selection.x + x)))
      (List.range selection.width.toNat)
      (fun x hx h => by
        have hx2 : (x : Int) < selection.width := Int.lt_toNat.mp (List.mem_range.mp hx)
        show ∃ h2, histogramPixel round h (img.pixel (selection.y + y) (selection.x + x)) =
          some h2 ∧ h2.values = incrementAt h.values ⌊round (v * 1023)⌋.toNat
        rw [hpix y x hy2 hx2]
        exact histogramPixel_values round v hmono h0 h1023 hv0 hv1 h) h
    simpa [histogramRow] using hfold
  obtain ⟨h2, hfold, hvals⟩ := foldlM_values _ (histogramRow round img selection)
    (List.range selection.height.toNat) hrow
    { values := List.replicate NUM_HISTOGRAM_BINS 0, minValue := FLT_MAX, maxValue := -FLT_MAX,
      maxCount := 0 }
  have hvals2 : h2.values = (List.replicate NUM_HISTOGRAM_BINS 0).set
      ⌊round (v * 1023)⌋.toNat selection.pixelCount := by
    rw [hvals, ← Function.iterate_mul, List.length_range]
    conv_lhs => rw [← replicate_zero_set NUM_HISTOGRAM_BINS ⌊round (v * 1023)⌋.toNat]
    rw [iterate_incrementAt_set _ _ _ _ (by simpa using hlt)]
    simp [wxRect.pixelCount]
  refine ⟨{ h2 with maxCount := histogramMaxCount h2.values }, ?_, ?_, hlt, ?_, ?_, ?_, ?_, ?_⟩
  · simp [DetermineHistogram, hfold]
  · simp [hvals2]
  · intro i hi
    simp only [hvals2, List.getElem?_set, List.length_replicate]
    by_cases hik : ⌊round (v * 1023)⌋.toNat = i
    · subst hik
      simp [hlt]
    · have hik2 : ¬ i = ⌊round (v * 1023)⌋.toNat := fun e => hik e.symm
      simp [hik, hik2, hi]
  · simp only [hvals2]
    exact histogramMaxCount_replicate_set _ _ _ hlt
  · intro hw hh
    simp only [wxRect.pixelCount, Nat.cast_mul, Int.toNat_of_nonneg hw, Int.toNat_of_nonneg hh]
  · intro hexact
    rw [hexact]
  · intro hint
    have hp0 : 0 ≤ v * 1023 := by positivity
    have hp1 : v * 1023 ≤ 1023 := by linarith
    have hf0 : 0 ≤ ⌊v * 1023⌋ := Int.floor_nonneg.mpr hp0
    have hcast : ((⌊v * 1023⌋.toNat : Nat) : ℚ) = ((⌊v * 1023⌋ : Int) : ℚ) := by
      rw [← Int.cast_natCast, Int.toNat_of_nonneg hf0]
    have hfn : ⌊v * 1023⌋.toNat ≤ 1023 := by
      have hfl : ⌊v * 1023⌋ ≤ 1023 := by
        have hm := Int.floor_mono hp1
        have e1023 : ⌊(1023 : ℚ)⌋ = 1023 := by simp
        rwa [e1023] at hm
      omega
    constructor
    · have hle : ((⌊v * 1023⌋.toNat : Nat) : ℚ) ≤ v * 1023 := by
        rw [hcast]
        exact Int.floor_le _
      have h1 := hmono hle
      rw [hint _ hfn] at h1
      have h2 : ((⌊v * 1023⌋.toNat : Nat) : Int) ≤ ⌊round (v * 1023)⌋ :=
        Int.le_floor.mpr (by exact_mod_cast h1)
      omega
    · by_cases hlast : ⌊v * 1023⌋.toNat = 1023
      · simp only [NUM_HISTOGRAM_BINS] at hlt
        omega
      · have hle : v * 1023 ≤ ((⌊v * 1023⌋.toNat + 1 : Nat) : ℚ) := by
          rw [Nat.cast_add, hcast, Nat.cast_one]
          exact (Int.lt_floor_add_one _).le
        have h1 := hmono hle
        rw [hint _ (by omega)] at h1
        have h2 : ⌊round (v * 1023)⌋ ≤ ((⌊v * 1023⌋.toNat + 1 : Nat) : Int) := by
          have hm := Int.floor_mono h1
          rwa [Int.floor_natCast] at hm
        omega

/-- Witness for C3 (as amended): `float` products, a selection of 3 by 2 pixels at `(0, 0)`
of an image whose pixels all hold `1/2` (bin `floor(511.5) = 511`, count 6). -/
theorem determineHistogram_uniform_witness :
    Monotone roundFloat ∧ roundFloat 0 = 0 ∧ roundFloat 1023 = 1023 ∧
    ∃ h, DetermineHistogram roundFloat (uniformImage (1 / 2)) ⟨0, 0, 3, 2⟩ = some h ∧
      h.values.length = NUM_HISTOGRAM_BINS ∧
      ⌊roundFloat ((1 / 2 : ℚ) * 1023)⌋.toNat < NUM_HISTOGRAM_BINS ∧
      (∀ i, i < NUM_HISTOGRAM_BINS → h.values[i]? =
        some (if i = ⌊roundFloat ((1 / 2 : ℚ) * 1023)⌋.toNat then
          (⟨0, 0, 3, 2⟩ : wxRect).pixelCount else 0)) ∧
      h.maxCount = (⟨0, 0, 3, 2⟩ : wxRect).pixelCount ∧
      ((0 : Int) ≤ 3 → (0 : Int) ≤ 2 → ((⟨0, 0, 3, 2⟩ : wxRect).pixelCount : Int) = 3 * 2) ∧
      (roundFloat ((1 / 2 : ℚ) * 1023) = (1 / 2 : ℚ) * 1023 →
        ⌊roundFloat ((1 / 2 : ℚ) * 1023)⌋.toNat = ⌊(1 / 2 : ℚ) * 1023⌋.toNat) ∧
      ((∀ n : Nat, n ≤ 1023 → roundFloat n = n) →
        ⌊(1 / 2 : ℚ) * 1023⌋.toNat ≤ ⌊roundFloat ((1 / 2 : ℚ) * 1023)⌋.toNat ∧
        ⌊roundFloat ((1 / 2 : ℚ) * 1023)⌋.toNat ≤ ⌊(1 / 2 : ℚ) * 1023⌋.toNat + 1) :=
  ⟨roundFloat_monotone, by decide!, by decide!,
    determineHistogram_uniform roundFloat (uniformImage (1 / 2)) ⟨0, 0, 3, 2⟩ (1 / 2)
      roundFloat_monotone (by decide!) (by decide!) (by norm_num) (by norm_num)
      (fun _ _ _ _ => rfl)⟩

/-- Rounding to `float` fixes the integers from 0 to 1023. -/
theorem roundFloat_natCast_of_le : ∀ n : Nat, n ≤ 1023 → roundFloat n = n := by
  decide!

/-- Counterexample to C3 as stated: with `float` products, for the pixel value
`v = float(1/1023)` (which is `1049601 / 2^30`) the exact product `v*1023` is `1 - 2^(-30)`,
so `floor(v*1023) = 0`, but the `float` product is 1: in a selection of 2 by 2 such pixels
bin 0 holds 0 and bin 1 holds the 4 pixels. -/
theorem determineHistogram_uniform_counterexample :
    roundFloat (1 / 1023) = 1049601 / 1073741824 ∧
    (0 : ℚ) ≤ 1049601 / 1073741824 ∧ (1049601 / 1073741824 : ℚ) ≤ 1 ∧
    roundFloat (1049601 / 1073741824) = 1049601 / 1073741824 ∧
    ⌊(1049601 / 1073741824 : ℚ) * 1023⌋ = 0 ∧
    roundFloat ((1049601 / 1073741824 : ℚ) * 1023) = 1 ∧
    (⟨0, 0, 2, 2⟩ : wxRect).pixelCount = 4 ∧
    (DetermineHistogram roundFloat (uniformImage (1049601 / 1073741824)) ⟨0, 0, 2, 2⟩).map
      (fun h => (h.values[0]?, h.values[1]?, h.maxCount)) = some (some 0, some 4, 4) := by
  decide!

/-! ### The gauge of the alignment progress dialog -/

theorem gaugeTrace_append (dlg : c_ImageAlignmentProgress) (es1 es2 : List wxThreadEvent) :
    gaugeTrace dlg (es1 ++ es2) =
      gaugeTrace dlg es1 ++
        gaugeTrace (es1.foldl c_ImageAlignmentProgress.OnThreadEvent dlg) es2 := by
  induction es1 generalizing dlg with
  | nil => rfl
  | cons e es ih => simp [gaugeTrace, ih]

theorem onThreadEvent_translation (payload : Nat → AlignmentEventPayload_t)
    (dlg : c_ImageAlignmentProgress) (i : Nat) :
    (dlg.OnThreadEvent (translationEvent payload i)).m_ProgressGauge =
        ⟨dlg.m_ProgressGauge.range, i⟩ ∧
      (dlg.OnThreadEvent (translationEvent payload i)).m_Parameters = dlg.m_Parameters := by
  simp [c_ImageAlignmentProgress.OnThreadEvent, translationEvent, wxGauge.SetValue]

theorem onThreadEvent_saved_zero (dlg : c_ImageAlignmentProgress) :
    (dlg.OnThreadEvent (savedEvent 0)).m_ProgressGauge =
        ⟨dlg.m_Parameters.inputFilesCount, 1⟩ ∧
      (dlg.OnThreadEvent (savedEvent 0)).m_Parameters = dlg.m_Parameters := by
  simp [c_ImageAlignmentProgress.OnThreadEvent, savedEvent, wxGauge.SetValue, wxGauge.SetRange]

theorem onThreadEvent_saved_succ (dlg : c_ImageAlignmentProgress) (i : Nat) :
    (dlg.OnThreadEvent (savedEvent (i + 1))).m_ProgressGauge =
        ⟨dlg.m_ProgressGauge.range, (i : Int) + 2⟩ ∧
      (dlg.OnThreadEvent (savedEvent (i + 1))).m_Parameters = dlg.m_Parameters := by
  have hne : ¬ ((i : Int) + 1 = 0) := by omega
  simp [c_ImageAlignmentProgress.OnThreadEvent, savedEvent, wxGauge.SetValue, hne]
  ring

/-- Translation events with indices `s, s+1, ..., s+k-1`: the range stays, the value is the
index. -/
theorem gaugeTrace_translation (payload : Nat → AlignmentEventPayload_t) (k s : Nat)
    (dlg : c_ImageAlignmentProgress) :
    gaugeTrace dlg ((List.range' s k).map (translationEvent payload)) =
        (List.range' s k).map (fun (i : Nat) => (⟨dlg.m_ProgressGauge.range, (i : Int)⟩ : wxGauge)) ∧
      (((List.range' s k).map (translationEvent payload)).foldl
        c_ImageAlignmentProgress.OnThreadEvent dlg).m_ProgressGauge.range =
          dlg.m_ProgressGauge.range ∧
      (((List.range' s k).map (translationEvent payload)).foldl
        c_ImageAlignmentProgress.OnThreadEvent dlg).m_Parameters = dlg.m_Parameters := by
  induction k generalizing s dlg with
  | zero => simp [gaugeTrace]
  | succ k ih =>
    obtain ⟨hg, hp⟩ := onThreadEvent_translation payload dlg s
    obtain ⟨h1, h2, h3⟩ := ih (s + 1) (dlg.OnThreadEvent (translationEvent payload s))
    simp only [List.range'_succ, List.map_cons, gaugeTrace, List.foldl_cons]
    rw [h1, h2, h3, hg, hp]
    simp

/-- Save events with indices `s+1, ..., s+k`: the range stays, the value is the index plus
one. -/
theorem gaugeTrace_saved_succ (k s : Nat) (dlg : c_ImageAlignmentProgress) :
    gaugeTrace dlg ((List.range' (s + 1) k).map savedEvent) =
        (List.range' (s + 1) k).map
          (fun (i : Nat) => (⟨dlg.m_ProgressGauge.range, (i : Int) + 1⟩ : wxGauge)) := by
  induction k generalizing s dlg with
  | zero => simp [gaugeTrace]
  | succ k ih =>
    obtain ⟨hg, -⟩ := onThreadEvent_saved_succ dlg s
    have h1 := ih (s + 1) (dlg.OnThreadEvent (savedEvent (s + 1)))
    simp only [List.range'_succ, List.map_cons, gaugeTrace]
    rw [h1, hg]
    simp
    ring

/-- C10: a phase-correlation run over `n ≥ 2` files.  The gauge has range `n - 1` after
initialisation; a translation event with index `i` sets the value to `i` and keeps the range;
the save event with index 0 sets the range to `n` (and the value to 1); a later save event with
index `i` sets the value to `i + 1`.  Over the translation events `1 .. n-1` followed by the
save events `0 .. n-1` the gauge is `(n-1, 1), ..., (n-1, n-1), (n, 1), ..., (n, n)`: the value
never exceeds the range and the gauge ends at `n` out of `n`. -/
theorem gauge_phaseCorrelation (payload : Nat → AlignmentEventPayload_t) (n : Nat)
    (hn : 2 ≤ n) :
    (c_ImageAlignmentProgress.InitControls ⟨.PHASE_CORRELATION, n⟩).m_ProgressGauge =
        ⟨(n : Int) - 1, 0⟩ ∧
    (∀ (dlg : c_ImageAlignmentProgress) (i : Nat),
      (dlg.OnThreadEvent (translationEvent payload i)).m_ProgressGauge =
        ⟨dlg.m_ProgressGauge.range, i⟩) ∧
    (∀ dlg : c_ImageAlignmentProgress,
      (dlg.OnThreadEvent (savedEvent 0)).m_ProgressGauge =
        ⟨dlg.m_Parameters.inputFilesCount, 1⟩) ∧
    (∀ (dlg : c_ImageAlignmentProgress) (i : Nat),
      (dlg.OnThreadEvent (savedEvent (i + 1))).m_ProgressGauge =
        ⟨dlg.m_ProgressGauge.range, (i : Int) + 2⟩) ∧
    gaugeTrace (c_ImageAlignmentProgress.InitControls ⟨.PHASE_CORRELATION, n⟩)
        (phaseCorrelationEvents payload n) =
      (List.range' 1 (n - 1)).map (fun (i : Nat) => (⟨(n : Int) - 1, (i : Int)⟩ : wxGauge)) ++
        (List.range' 0 n).map (fun (i : Nat) => (⟨(n : Int), (i : Int) + 1⟩ : wxGauge)) ∧
    (∀ g ∈ (c_ImageAlignmentProgress.InitControls ⟨.PHASE_CORRELATION, n⟩).m_ProgressGauge ::
        gaugeTrace (c_ImageAlignmentProgress.InitControls ⟨.PHASE_CORRELATION, n⟩)
          (phaseCorrelationEvents payload n), g.value ≤ g.range) ∧
    (gaugeTrace (c_ImageAlignmentProgress.InitControls ⟨.PHASE_CORRELATION, n⟩)
        (phaseCorrelationEvents payload n)).getLast? = some ⟨n, n⟩ := by
  have hinit : (c_ImageAlignmentProgress.InitControls ⟨.PHASE_CORRELATION, n⟩).m_ProgressGauge =
      ⟨(n : Int) - 1, 0⟩ := by
    simp [c_ImageAlignmentProgress.InitControls, wxGauge.SetRange]
  have hpar : (c_ImageAlignmentProgress.InitControls ⟨.PHASE_CORRELATION, n⟩).m_Parameters =
      ⟨.PHASE_CORRELATION, n⟩ := rfl
  have htrace : gaugeTrace (c_ImageAlignmentProgress.InitControls ⟨.PHASE_CORRELATION, n⟩)
        (phaseCorrelationEvents payload n) =
      (List.range' 1 (n - 1)).map (fun (i : Nat) => (⟨(n : Int) - 1, (i : Int)⟩ : wxGauge)) ++
        (List.range' 0 n).map (fun (i : Nat) => (⟨(n : Int), (i : Int) + 1⟩ : wxGauge)) := by
    obtain ⟨h1, -, h3⟩ := gaugeTrace_translation payload (n - 1) 1
      (c_ImageAlignmentProgress.InitControls ⟨.PHASE_CORRELATION, n⟩)
    unfold phaseCorrelationEvents
    rw [gaugeTrace_append, h1, hinit]
    congr 1
    obtain ⟨m, rfl⟩ : ∃ m, n = m + 1 := ⟨n - 1, by omega⟩
    simp only [List.range'_succ, List.map_cons, gaugeTrace]
    obtain ⟨hg, -⟩ := onThreadEvent_saved_zero
      (((List.range' 1 (m + 1 - 1)).map (translationEvent payload)).foldl
        c_ImageAlignmentProgress.OnThreadEvent
        (c_ImageAlignmentProgress.InitControls ⟨.PHASE_CORRELATION, m + 1⟩))
    rw [gaugeTrace_saved_succ, hg, h3, hpar]
    simp
  refine ⟨hinit, fun dlg i => (onThreadEvent_translation payload dlg i).1,
    fun dlg => (onThreadEvent_saved_zero dlg).1,
    fun dlg i => (onThreadEvent_saved_succ dlg i).1, htrace, ?_, ?_⟩
  · intro g hg
    rw [htrace, hinit] at hg
    simp only [List.mem_cons, List.mem_append, List.mem_map, List.mem_range'_1] at hg
    rcases hg with rfl | ⟨i, hi, rfl⟩ | ⟨i, hi, rfl⟩
    · show (0 : Int) ≤ (n : Int) - 1
      omega
    · show (i : Int) ≤ (n : Int) - 1
      omega
    · show (i : Int) + 1 ≤ (n : Int)
      omega
  · rw [htrace]
    obtain ⟨m, rfl⟩ : ∃ m, n = m + 1 := ⟨n - 1, by omega⟩
    rw [List.range'_concat, List.map_append, ← List.append_assoc]
    simp

/-- Witness for C10 with 5 files: range 4 with values 1..4, then range 5 with values 1..5. -/
theorem gauge_phaseCorrelation_witness :
    (c_ImageAlignmentProgress.InitControls ⟨.PHASE_CORRELATION, 5⟩).m_ProgressGauge = ⟨4, 0⟩ ∧
    gaugeTrace (c_ImageAlignmentProgress.InitControls ⟨.PHASE_CORRELATION, 5⟩)
        (phaseCorrelationEvents (fun _ => ⟨(0, 0), 0⟩) 5) =
      [⟨4, 1⟩, ⟨4, 2⟩, ⟨4, 3⟩, ⟨4, 4⟩, ⟨5, 1⟩, ⟨5, 2⟩, ⟨5, 3⟩, ⟨5, 4⟩, ⟨5, 5⟩] := by
  obtain ⟨h1, -, -, -, h5, -, -⟩ :=
    gauge_phaseCorrelation (fun _ => ⟨(0, 0), 0⟩) 5 (by decide)
  exact ⟨h1, h5⟩

/-! ### Loading settings: failure -/

/-- The body of the loop returns `false` exactly when the parser of the section fails. -/
theorem loadChild_eq_none_iff (tf : TextFunctions) (child : wxXmlNode) (st : LoadResult) :
    loadChild tf child st = none ↔ sectionFails tf child = true := by
  unfold loadChild sectionFails
  split_ifs with h1 h2 h3 h4
  · cases ParseLucyRichardsonSettings tf child <;> simp
  · cases ParseUnsharpMaskingSettings tf child <;> simp
  · cases ParseToneCurveSettings tf child tf.defaultToneCurve <;> simp
  · cases ParseNormalizationSetings tf child <;> simp
  · simp

/-- The body of the loop, when it does not return, sets the flag of the section it has
parsed and leaves the other flags and the result as they are. -/
theorem loadChild_flags (tf : TextFunctions) (child : wxXmlNode) (st st2 : LoadResult)
    (h : loadChild tf child st = some st2) :
    st2.loadedLR = (st.loadedLR || decide (child.GetName = "lucy-richardson")) ∧
    st2.loadedUnsh = (st.loadedUnsh || decide (child.GetName = "unsharp_mask")) ∧
    st2.loadedTCurve = (st.loadedTCurve || decide (child.GetName = "tone_curve")) := by
  unfold loadChild at h
  simp only [XmlName.lucyRichardson, XmlName.unshMask, XmlName.tcurve,
    XmlName.normalization] at h
  split_ifs at h with h1 h2 h3 h4
  · cases hp : ParseLucyRichardsonSettings tf child with
    | none => rw [hp] at h; cases h
    | some v =>
      rw [hp] at h
      cases h
      have e2 : ¬ child.GetName = "unsharp_mask" := by rw [h1]; decide
      have e3 : ¬ child.GetName = "tone_curve" := by rw [h1]; decide
      simp [h1, e2, e3]
  · cases hp : ParseUnsharpMaskingSettings tf child with
    | none => rw [hp] at h; cases h
    | some v =>
      rw [hp] at h
      cases h
      have e3 : ¬ child.GetName = "tone_curve" := by rw [h2]; decide
      simp [h1, h2, e3]
  · cases hp : ParseToneCurveSettings tf child tf.defaultToneCurve with
    | none => rw [hp] at h; cases h
    | some v =>
      rw [hp] at h
      cases h
      simp [h1, h2, h3]
  · cases hp : ParseNormalizationSetings tf child with
    | none => rw [hp] at h; cases h
    | some v =>
      rw [hp] at h
      cases h
      simp [h1, h2, h3]
  · cases h
    simp [h1, h2, h3]

/-- The loop of `LoadSettings` returns `false` when the parser of some section fails. -/
theorem loadChildren_fails (tf : TextFunctions) (children : List wxXmlNode) (st : LoadResult)
    (h : ∃ c ∈ children, sectionFails tf c = true) :
    (loadChildren tf children st).result = false := by
  induction children generalizing st with
  | nil => simp at h
  | cons child rest ih =>
    unfold loadChildren
    cases hc : loadChild tf child st with
    | none => rfl
    | some st2 =>
      apply ih
      obtain ⟨c, hmem, hf⟩ := h
      rcases List.mem_cons.mp hmem with rfl | hm
      · rw [(loadChild_eq_none_iff tf c st).mpr hf] at hc
        cases hc
      · exact ⟨c, hm, hf⟩

/-- The loop of `LoadSettings` returns `true` when no section parser fails, and it sets the
flag of each of the three reported sections exactly when the section is among the children. -/
theorem loadChildren_ok (tf : TextFunctions) (children : List wxXmlNode) (st : LoadResult)
    (h : ∀ c ∈ children, sectionFails tf c = false) :
    (loadChildren tf children st).result = true ∧
    (loadChildren tf children st).loadedLR =
      (st.loadedLR || children.any (fun c => c.GetName = "lucy-richardson")) ∧
    (loadChildren tf children st).loadedUnsh =
      (st.loadedUnsh || children.any (fun c => c.GetName = "unsharp_mask")) ∧
    (loadChildren tf children st).loadedTCurve =
      (st.loadedTCurve || children.any (fun c => c.GetName = "tone_curve")) := by
  induction children generalizing st with
  | nil => simp [loadChildren]
  | cons child rest ih =>
    unfold loadChildren
    cases hc : loadChild tf child st with
    | none =>
      have hf := (loadChild_eq_none_iff tf child st).mp hc
      rw [h child (List.mem_cons_self child rest)] at hf
      cases hf
    | some st2 =>
      obtain ⟨f1, f2, f3⟩ := loadChild_flags tf child st st2 hc
      obtain ⟨r, g1, g2, g3⟩ := ih st2 (fun c hm => h c (List.mem_cons_of_mem child hm))
      simp only [List.any_cons]
      refine ⟨r, ?_, ?_, ?_⟩
      · rw [g1, f1, Bool.or_assoc]
      · rw [g2, f2, Bool.or_assoc]
      · rw [g3, f3, Bool.or_assoc]

/-- The loop of `LoadSettings` on sections that parse, followed by a section that does not:
what is left is the outcome of the loop over the sections before the failing one, with the
result `false`; the children after the failing one are not read. -/
theorem loadChildren_append_fail (tf : TextFunctions) (pre : List wxXmlNode)
    (bad : wxXmlNode) (post : List wxXmlNode) (st : LoadResult)
    (hpre : ∀ c ∈ pre, sectionFails tf c = false) (hbad : sectionFails tf bad = true) :
    loadChildren tf (pre ++ bad :: post) st =
      { loadChildren tf pre st with result := false } := by
  induction pre generalizing st with
  | nil =>
    simp only [List.nil_append]
    unfold loadChildren
    rw [(loadChild_eq_none_iff tf bad st).mpr hbad]
  | cons child rest ih =>
    simp only [List.cons_append]
    unfold loadChildren
    cases hc : loadChild tf child st with
    | none => rfl
    | some st2 => exact ih st2 (fun c hm => hpre c (List.mem_cons_of_mem child hm))

/-- The function `LoadSettings` returns `false` on a document that has a child whose section
parser fails. -/
theorem loadSettings_fails (tf : TextFunctions) (root node : wxXmlNode)
    (settings : ProcessingSettings) (hmem : node ∈ root.GetChildren)
    (hfail : sectionFails tf node = true) :
    (LoadSettings tf (some root) settings).result = false :=
  loadChildren_fails tf root.GetChildren (loadStart settings) ⟨node, hmem, hfail⟩

/-- The loop that adds the points adds one point for each pair of values. -/
theorem addPoints_numPoints (values : List ℚ) (t : c_ToneCurve) :
    (addPoints t values).GetNumPoints = t.GetNumPoints + values.length / 2 := by
  revert values t
  have hpts : ∀ (values : List ℚ) (t : c_ToneCurve),
      (addPoints t values).GetNumPoints = t.GetNumPoints + values.length / 2 := by
    intro values t
    induction t, values using addPoints.induct with
    | case1 t x y rest ih =>
      simp only [addPoints, List.length_cons]
      rw [ih]
      simp only [c_ToneCurve.GetNumPoints, c_ToneCurve.AddPoint, List.length_append,
        List.length_singleton]
      omega
    | case2 l t hl =>
      match l, hl with
      | [], _ => simp [addPoints]
      | [x], _ => simp [addPoints]
      | x :: y :: rest, hl => exact absurd rfl (hl x y rest)
  exact hpts

/-- A tone curve parsed from fewer than 2 points is rejected, whatever curve is passed in. -/
theorem parseToneCurveSettings_few (tf : TextFunctions) (node : wxXmlNode)
    (tcurve : c_ToneCurve) (hfew : FewerThanTwoPoints tf node) :
    ParseToneCurveSettings tf node tcurve = none := by
  unfold ParseToneCurveSettings
  simp only
  split
  · rfl
  · split
    · rfl
    · cases hl : tf.ParseList node.GetNodeContent ';' with
      | none => rfl
      | some values =>
        simp only
        split_ifs with hodd hnum
        · rfl
        · rfl
        · exfalso
          apply hnum
          rw [addPoints_numPoints]
          have := hfew values hl
          simp only [c_ToneCurve.GetNumPoints, c_ToneCurve.ClearPoints, List.length_nil]
          omega

theorem parseLucyRichardsonSettings_malformed (tf : TextFunctions) (node : wxXmlNode)
    (h : tf.Parse (node.GetAttribute "sigma") = none ∨
      tf.ToULong (node.GetAttribute "iterations") = none ∨
      ¬ IsBoolToken (node.GetAttribute "deringing")) :
    ParseLucyRichardsonSettings tf node = none := by
  unfold ParseLucyRichardsonSettings
  simp only [XmlName.lrSigma, XmlName.lrIters, XmlName.lrDeringing, trueStr, falseStr]
  unfold IsBoolToken at h
  split
  · rfl
  · split
    · rfl
    · split_ifs with h1 h2
      · simp_all
      · simp_all
      · rfl

theorem parseUnsharpMaskingSettings_malformed (tf : TextFunctions) (node : wxXmlNode)
    (h : ¬ IsBoolToken (node.GetAttribute "adaptive") ∨
      tf.Parse (node.GetAttribute "sigma") = none ∨
      tf.Parse (node.GetAttribute "amount_min") = none ∨
      tf.Parse (node.GetAttribute "amount_max") = none ∨
      tf.Parse (node.GetAttribute "amount_threshold") = none ∨
      tf.Parse (node.GetAttribute "amount_width") = none) :
    ParseUnsharpMaskingSettings tf node = none := by
  unfold ParseUnsharpMaskingSettings
  simp only [XmlName.unshAdaptive, XmlName.unshSigma, XmlName.unshAmountMin,
    XmlName.unshAmountMax, XmlName.unshThreshold, XmlName.unshWidth, trueStr, falseStr]
  unfold IsBoolToken at h
  split
  · rfl
  · rename_i adaptive hadaptive
    have hbool : node.GetAttribute "adaptive" = "true" ∨
        node.GetAttribute "adaptive" = "false" := by
      by_contra hcon
      push_neg at hcon
      rw [if_neg hcon.1, if_neg hcon.2] at hadaptive
      cases hadaptive
    split
    · rfl
    · split
      · rfl
      · split
        · rfl
        · split
          · rfl
          · split
            · rfl
            · simp_all

theorem parseNormalizationSetings_malformed (tf : TextFunctions) (node : wxXmlNode)
    (h : ¬ IsBoolToken (node.GetAttribute "enabled") ∨
      tf.Parse (node.GetAttribute "min") = none ∨
      tf.Parse (node.GetAttribute "max") = none) :
    ParseNormalizationSetings tf node = none := by
  unfold ParseNormalizationSetings
  simp only [XmlName.normEnabled, XmlName.normMin, XmlName.normMax]
  unfold IsBoolToken at h
  split
  · rfl
  · rename_i enabled henabled
    have hbool : node.GetAttribute "enabled" = "true" ∨
        node.GetAttribute "enabled" = "false" := by
      by_contra hcon
      push_neg at hcon
      rw [if_neg hcon.1, if_neg hcon.2] at henabled
      cases henabled
    split
    · rfl
    · split
      · rfl
      · simp_all

theorem parseToneCurveSettings_malformed (tf : TextFunctions) (node : wxXmlNode)
    (tcurve : c_ToneCurve)
    (h : ¬ IsBoolToken (node.GetAttribute "smooth") ∨
      ¬ IsBoolToken (node.GetAttribute "is_gamma") ∨
      (node.GetAttribute "is_gamma" = "true" ∧ tf.Parse (node.GetAttribute "gamma") = none) ∨
      tf.ParseList node.GetNodeContent ';' = none ∨
      (∃ values, tf.ParseList node.GetNodeContent ';' = some values ∧
        values.length % 2 = 1)) :
    ParseToneCurveSettings tf node tcurve = none := by
  unfold ParseToneCurveSettings
  simp only [XmlName.tcSmooth, XmlName.tcIsGamma, XmlName.tcGamma]
  unfold IsBoolToken at h
  split
  · rfl
  · rename_i t1 hsmooth
    have hb1 : node.GetAttribute "smooth" = "true" ∨ node.GetAttribute "smooth" = "false" := by
      by_contra hcon
      push_neg at hcon
      rw [if_neg hcon.1, if_neg hcon.2] at hsmooth
      cases hsmooth
    split
    · rfl
    · rename_i t2 hgamma
      have hb2 : node.GetAttribute "is_gamma" = "true" ∨
          node.GetAttribute "is_gamma" = "false" := by
        by_contra hcon
        push_neg at hcon
        rw [if_neg hcon.1, if_neg hcon.2] at hgamma
        cases hgamma
      have hg : ¬ (node.GetAttribute "is_gamma" = "true" ∧
          tf.Parse (node.GetAttribute "gamma") = none) := by
        rintro ⟨hg1, hg2⟩
        rw [if_pos hg1] at hgamma
        simp only [hg2] at hgamma
        cases hgamma
      cases hl : tf.ParseList node.GetNodeContent ';' with
      | none => rfl
      | some values =>
        simp only
        split_ifs with hodd hnum
        · rfl
        · rfl
        · exfalso
          rcases h with h | h | h | h | ⟨vs, hvs, hlen⟩
          · exact h hb1
          · exact h hb2
          · exact hg h
          · rw [hl] at h
            cases h
          · rw [hl] at hvs
            cases hvs
            omega

/-- A malformed recognised section makes its parser fail. -/
theorem sectionFails_of_malformed (tf : TextFunctions) (node : wxXmlNode)
    (h : MalformedSection tf node) : sectionFails tf node = true := by
  unfold sectionFails
  simp only [XmlName.lucyRichardson, XmlName.unshMask, XmlName.tcurve, XmlName.normalization]
  rcases h with ⟨hn, h⟩ | ⟨hn, h⟩ | ⟨hn, h⟩ | ⟨hn, h⟩
  · rw [if_pos hn, parseLucyRichardsonSettings_malformed tf node h]
    rfl
  · rw [if_neg (by rw [hn]; decide), if_pos hn, parseUnsharpMaskingSettings_malformed tf node h]
    rfl
  · rw [if_neg (by rw [hn]; decide), if_neg (by rw [hn]; decide), if_pos hn,
      parseToneCurveSettings_malformed tf node _ h]
    rfl
  · rw [if_neg (by rw [hn]; decide), if_neg (by rw [hn]; decide), if_neg (by rw [hn]; decide),
      if_pos hn, parseNormalizationSetings_malformed tf node h]
    rfl

/-- C6: a tone_curve section whose text content lists fewer than 2 control points (an empty
list included) is rejected by `ParseToneCurveSettings`, and `LoadSettings` returns `false` on
every document that has such a section. -/
theorem toneCurve_fewer_than_two_points (tf : TextFunctions) (node : wxXmlNode)
    (hfew : FewerThanTwoPoints tf node) :
    (∀ tcurve, ParseToneCurveSettings tf node tcurve = none) ∧
    (∀ (root : wxXmlNode) (settings : ProcessingSettings), node ∈ root.GetChildren →
      node.GetName = "tone_curve" → (LoadSettings tf (some root) settings).result = false) := by
  refine ⟨fun tcurve => parseToneCurveSettings_few tf node tcurve hfew, ?_⟩
  intro root settings hmem hname
  apply loadSettings_fails tf root node settings hmem
  unfold sectionFails
  simp only [XmlName.lucyRichardson, XmlName.unshMask, XmlName.tcurve]
  rw [if_neg (by rw [hname]; decide), if_neg (by rw [hname]; decide), if_pos hname,
    parseToneCurveSettings_few tf node _ hfew]
  rfl

/-- Witness for C6: a document whose tone curve lists the single point `(0, 0)`. -/
theorem toneCurve_fewer_than_two_points_witness :
    FewerThanTwoPoints stdText onePointToneCurveNode ∧
    ParseToneCurveSettings stdText onePointToneCurveNode identityToneCurve = none ∧
    (LoadSettings stdText (some onePointDocument) exampleSettings).result = false := by
  have hfew : FewerThanTwoPoints stdText onePointToneCurveNode := by
    intro values hvalues
    have hlist : stdText.ParseList onePointToneCurveNode.GetNodeContent ';' = some [0, 0] := by
      decide!
    rw [hlist] at hvalues
    cases hvalues
    decide
  obtain ⟨h1, h2⟩ := toneCurve_fewer_than_two_points stdText onePointToneCurveNode hfew
  exact ⟨hfew, h1 identityToneCurve,
    h2 onePointDocument exampleSettings (by simp [onePointDocument, wxXmlNode.GetChildren])
      (by decide)⟩

/-- C7: `LoadSettings` returns `false` on every document that has a recognised section with a
malformed value, whatever its other sections are. -/
theorem loadSettings_malformed (tf : TextFunctions) (root node : wxXmlNode)
    (settings : ProcessingSettings) (hmem : node ∈ root.GetChildren)
    (hbad : MalformedSection tf node) :
    (LoadSettings tf (some root) settings).result = false :=
  loadSettings_fails tf root node settings hmem (sectionFails_of_malformed tf node hbad)

/-- Witness for C7: a well-formed lucy-richardson section followed by an unsharp_mask section
whose `adaptive` attribute is `"yes"`. -/
theorem loadSettings_malformed_witness :
    MalformedSection stdText badUnsharpMaskNode ∧
    (LoadSettings stdText (some badUnsharpMaskDocument) exampleSettings).result = false := by
  have hbad : MalformedSection stdText badUnsharpMaskNode := by
    right
    left
    refine ⟨by decide, Or.inl ?_⟩
    decide
  exact ⟨hbad, loadSettings_malformed stdText badUnsharpMaskDocument badUnsharpMaskNode
    exampleSettings (by simp [badUnsharpMaskDocument, wxXmlNode.GetChildren]) hbad⟩

/-! ### Saving and loading settings -/

/-- The points that `CreateToneCurveSettingsNode` reads with `GetPoint` are the points of the
curve, in order. -/
theorem map_getPoint_range (t : c_ToneCurve) :
    (List.range t.GetNumPoints).map (fun i => t.GetPoint i) = t.m_Points := by
  apply List.ext_getElem
  · simp [c_ToneCurve.GetNumPoints]
  · intro i h1 h2
    simp [c_ToneCurve.GetPoint, List.getD_eq_getElem?_getD, List.getElem?_eq_getElem h2]

theorem flattenPoints_length (points : List (ℚ × ℚ)) :
    (flattenPoints points).length = 2 * points.length := by
  induction points with
  | nil => rfl
  | cons p ps ih =>
    simp only [flattenPoints, List.length_cons, ih]
    omega

/-- A loop of `LoadSettings` that returns `false` has stopped at a first section whose parser
fails. -/
theorem loadChildren_false_split (tf : TextFunctions) (children : List wxXmlNode)
    (st : LoadResult) (h : (loadChildren tf children st).result = false) :
    ∃ pre bad post, children = pre ++ bad :: post ∧
      (∀ c ∈ pre, sectionFails tf c = false) ∧ sectionFails tf bad = true := by
  induction children generalizing st with
  | nil => simp [loadChildren] at h
  | cons child rest ih =>
    cases hf : sectionFails tf child with
    | true => exact ⟨[], child, rest, rfl, by simp, hf⟩
    | false =>
      unfold loadChildren at h
      cases hc : loadChild tf child st with
      | none =>
        rw [(loadChild_eq_none_iff tf child st).mp hc] at hf
        cases hf
      | some st2 =>
        rw [hc] at h
        obtain ⟨pre, bad, post, hsplit, hpre, hbad⟩ := ih st2 h
        refine ⟨child :: pre, bad, post, by rw [hsplit]; rfl, ?_, hbad⟩
        intro c hmem
        rcases List.mem_cons.mp hmem with rfl | hm
        · exact hf
        · exact hpre c hm

/-- C8 (as amended): when `LoadSettings` returns `false`, either the document could not be
read, and then the settings are those before the call with `LucyRichardson.deringing.enabled`
and `normalization.enabled` set to false and no section is reported as loaded; or the
children of the root are sections that parse, followed by a first section that does not, and
then the settings and the reported sections are those of a successful load of the document cut
before that section: the sections before it have been applied and reported. -/
theorem loadSettings_false_state (tf : TextFunctions) (doc : Option wxXmlNode)
    (settings : ProcessingSettings) (hfalse : (LoadSettings tf doc settings).result = false) :
    (doc = none ∧
      LoadSettings tf doc settings =
        { result := false
          settings := { settings with
            LucyRichardson := { settings.LucyRichardson with deringing := { enabled := false } }
            normalization := { settings.normalization with enabled := false } }
          loadedLR := false
          loadedUnsh := false
          loadedTCurve := false }) ∨
    (∃ type name content attributes pre bad post,
      doc = some (wxXmlNode.mk type name content attributes (pre ++ bad :: post)) ∧
      (∀ c ∈ pre, sectionFails tf c = false) ∧ sectionFails tf bad = true ∧
      (LoadSettings tf (some (wxXmlNode.mk type name content attributes pre))
        settings).result = true ∧
      LoadSettings tf doc settings =
        { LoadSettings tf (some (wxXmlNode.mk type name content attributes pre)) settings with
          result := false }) := by
  cases doc with
  | none => exact Or.inl ⟨rfl, rfl⟩
  | some root =>
    right
    obtain ⟨type, name, content, attributes, children⟩ := root
    simp only [LoadSettings, wxXmlNode.GetChildren] at hfalse
    obtain ⟨pre, bad, post, hsplit, hpre, hbad⟩ :=
      loadChildren_false_split tf children (loadStart settings) hfalse
    subst hsplit
    refine ⟨type, name, content, attributes, pre, bad, post, rfl, hpre, hbad, ?_, ?_⟩
    · exact (loadChildren_ok tf pre (loadStart settings) hpre).1
    · exact loadChildren_append_fail tf pre bad post (loadStart settings) hpre hbad

/-- Witness for C8 (as amended): a well-formed lucy-richardson section followed by a malformed
unsharp_mask section; what is left is the outcome of loading the lucy-richardson section
alone, with the result `false`. -/
theorem loadSettings_false_state_witness :
    (LoadSettings stdText (some badUnsharpMaskDocument) exampleSettings).result = false ∧
    LoadSettings stdText (some badUnsharpMaskDocument) exampleSettings =
      { LoadSettings stdText (some lucyRichardsonDocument) exampleSettings with
        result := false } ∧
    ((some badUnsharpMaskDocument = none ∧
      LoadSettings stdText (some badUnsharpMaskDocument) exampleSettings =
        { result := false
          settings := { exampleSettings with
            LucyRichardson :=
              { exampleSettings.LucyRichardson with deringing := { enabled := false } }
            normalization := { exampleSettings.normalization with enabled := false } }
          loadedLR := false
          loadedUnsh := false
          loadedTCurve := false }) ∨
    (∃ type name content attributes pre bad post,
      some badUnsharpMaskDocument =
        some (wxXmlNode.mk type name content attributes (pre ++ bad :: post)) ∧
      (∀ c ∈ pre, sectionFails stdText c = false) ∧ sectionFails stdText bad = true ∧
      (LoadSettings stdText (some (wxXmlNode.mk type name content attributes pre))
        exampleSettings).result = true ∧
      LoadSettings stdText (some badUnsharpMaskDocument) exampleSettings =
        { LoadSettings stdText (some (wxXmlNode.mk type name content attributes pre))
            exampleSettings with
          result := false })) := by
  have hfalse : (LoadSettings stdText (some badUnsharpMaskDocument) exampleSettings).result =
      false := by decide!
  exact ⟨hfalse, by decide!,
    loadSettings_false_state stdText (some badUnsharpMaskDocument) exampleSettings hfalse⟩

/-- Counterexample to C8 as stated: on a document with a well-formed lucy-richardson section
followed by a malformed unsharp_mask section `LoadSettings` returns `false`, the settings
differ from those before the call (sigma is 1.5 instead of 1.3) and the lucy-richardson
section is reported as loaded. -/
theorem loadSettings_false_counterexample :
    (LoadSettings stdText (some badUnsharpMaskDocument) exampleSettings).result = false ∧
    (LoadSettings stdText (some badUnsharpMaskDocument) exampleSettings).settings ≠
      exampleSettings ∧
    exampleSettings.LucyRichardson.sigma = 13 / 10 ∧
    (LoadSettings stdText (some badUnsharpMaskDocument)
      exampleSettings).settings.LucyRichardson.sigma = 3 / 2 ∧
    (LoadSettings stdText (some badUnsharpMaskDocument) exampleSettings).loadedLR = true := by
  decide!

theorem parseLucyRichardsonSettings_wellFormed (tf : TextFunctions) (node : wxXmlNode)
    (h : (tf.Parse (node.GetAttribute "sigma")).isSome ∧
      (tf.ToULong (node.GetAttribute "iterations")).isSome ∧
      IsBoolToken (node.GetAttribute "deringing")) :
    (ParseLucyRichardsonSettings tf node).isNone = false := by
  obtain ⟨h1, h2, h3⟩ := h
  obtain ⟨sigma, hs⟩ := Option.isSome_iff_exists.mp h1
  obtain ⟨value, hv⟩ := Option.isSome_iff_exists.mp h2
  unfold ParseLucyRichardsonSettings
  simp only [XmlName.lrSigma, XmlName.lrIters, XmlName.lrDeringing, trueStr, falseStr, hs, hv]
  rcases h3 with h3 | h3 <;> simp [h3]

theorem parseUnsharpMaskingSettings_wellFormed (tf : TextFunctions) (node : wxXmlNode)
    (h : IsBoolToken (node.GetAttribute "adaptive") ∧
      (tf.Parse (node.GetAttribute "sigma")).isSome ∧
      (tf.Parse (node.GetAttribute "amount_min")).isSome ∧
      (tf.Parse (node.GetAttribute "amount_max")).isSome ∧
      (tf.Parse (node.GetAttribute "amount_threshold")).isSome ∧
      (tf.Parse (node.GetAttribute "amount_width")).isSome) :
    (ParseUnsharpMaskingSettings tf node).isNone = false := by
  obtain ⟨h0, h1, h2, h3, h4, h5⟩ := h
  obtain ⟨x1, e1⟩ := Option.isSome_iff_exists.mp h1
  obtain ⟨x2, e2⟩ := Option.isSome_iff_exists.mp h2
  obtain ⟨x3, e3⟩ := Option.isSome_iff_exists.mp h3
  obtain ⟨x4, e4⟩ := Option.isSome_iff_exists.mp h4
  obtain ⟨x5, e5⟩ := Option.isSome_iff_exists.mp h5
  unfold ParseUnsharpMaskingSettings
  simp only [XmlName.unshAdaptive, XmlName.unshSigma, XmlName.unshAmountMin,
    XmlName.unshAmountMax, XmlName.unshThreshold, XmlName.unshWidth, trueStr, falseStr,
    e1, e2, e3, e4, e5]
  rcases h0 with h0 | h0 <;> simp [h0]

theorem parseNormalizationSetings_wellFormed (tf : TextFunctions) (node : wxXmlNode)
    (h : IsBoolToken (node.GetAttribute "enabled") ∧
      (tf.Parse (node.GetAttribute "min")).isSome ∧
      (tf.Parse (node.GetAttribute "max")).isSome) :
    (ParseNormalizationSetings tf node).isNone = false := by
  obtain ⟨h0, h1, h2⟩ := h
  obtain ⟨x1, e1⟩ := Option.isSome_iff_exists.mp h1
  obtain ⟨x2, e2⟩ := Option.isSome_iff_exists.mp h2
  unfold ParseNormalizationSetings
  simp only [XmlName.normEnabled, XmlName.normMin, XmlName.normMax, e1, e2]
  rcases h0 with h0 | h0 <;> simp [h0]

theorem parseToneCurveSettings_wellFormed (tf : TextFunctions) (node : wxXmlNode)
    (tcurve : c_ToneCurve)
    (h : IsBoolToken (node.GetAttribute "smooth") ∧
      IsBoolToken (node.GetAttribute "is_gamma") ∧
      (node.GetAttribute "is_gamma" = "true" →
        (tf.Parse (node.GetAttribute "gamma")).isSome) ∧
      (∃ values, tf.ParseList node.GetNodeContent ';' = some values ∧
        values.length % 2 = 0 ∧ 2 ≤ values.length / 2)) :
    (ParseToneCurveSettings tf node tcurve).isNone = false := by
  obtain ⟨h0, h1, h2, values, hl, heven, htwo⟩ := h
  have hnum : ∀ t : c_ToneCurve, ¬ ((addPoints t.ClearPoints values).GetNumPoints < 2) := by
    intro t
    rw [addPoints_numPoints]
    omega
  unfold ParseToneCurveSettings
  simp only [XmlName.tcSmooth, XmlName.tcIsGamma, XmlName.tcGamma, hl]
  rcases h0 with h0 | h0 <;> rcases h1 with h1 | h1
  · obtain ⟨gamma, hg⟩ := Option.isSome_iff_exists.mp (h2 h1)
    simp [h0, h1, hg, heven, hnum]
  · simp [h0, h1, heven, hnum]
  · obtain ⟨gamma, hg⟩ := Option.isSome_iff_exists.mp (h2 h1)
    simp [h0, h1, hg, heven, hnum]
  · simp [h0, h1, heven, hnum]

/-- The parser of a well-formed section does not fail. -/
theorem sectionFails_of_wellFormed (tf : TextFunctions) (node : wxXmlNode)
    (h : WellFormedSection tf node) : sectionFails tf node = false := by
  obtain ⟨hlr, hum, htc, hnm⟩ := h
  unfold sectionFails
  simp only [XmlName.lucyRichardson, XmlName.unshMask, XmlName.tcurve, XmlName.normalization]
  split_ifs with h1 h2 h3 h4
  · exact parseLucyRichardsonSettings_wellFormed tf node (hlr h1)
  · exact parseUnsharpMaskingSettings_wellFormed tf node (hum h2)
  · exact parseToneCurveSettings_wellFormed tf node _ (htc h3)
  · exact parseNormalizationSetings_wellFormed tf node (hnm h4)
  · rfl

/-- C9 (as amended): on a document in which each present section is well-formed,
`LoadSettings` returns `true` whichever of the four sections are present, and it reports each
of the sections lucy-richardson, unsharp_mask and tone_curve as loaded exactly when the
section is present in the document.  (There is no report for the normalization section.) -/
theorem loadSettings_wellFormed (tf : TextFunctions) (root : wxXmlNode)
    (settings : ProcessingSettings)
    (hwf : ∀ c ∈ root.GetChildren, WellFormedSection tf c) :
    (LoadSettings tf (some root) settings).result = true ∧
    (LoadSettings tf (some root) settings).loadedLR = hasSection root "lucy-richardson" ∧
    (LoadSettings tf (some root) settings).loadedUnsh = hasSection root "unsharp_mask" ∧
    (LoadSettings tf (some root) settings).loadedTCurve = hasSection root "tone_curve" := by
  have h := loadChildren_ok tf root.GetChildren (loadStart settings)
    (fun c hc => sectionFails_of_wellFormed tf c (hwf c hc))
  simpa [LoadSettings, hasSection, loadStart] using h

/-- Witness for C9 (as amended): a document with a lucy-richardson section only. -/
theorem loadSettings_wellFormed_witness :
    (∀ c ∈ lucyRichardsonDocument.GetChildren, WellFormedSection stdText c) ∧
    hasSection lucyRichardsonDocument "lucy-richardson" = true ∧
    hasSection lucyRichardsonDocument "unsharp_mask" = false ∧
    hasSection lucyRichardsonDocument "tone_curve" = false ∧
    (LoadSettings stdText (some lucyRichardsonDocument) exampleSettings).result = true ∧
    (LoadSettings stdText (some lucyRichardsonDocument) exampleSettings).loadedLR =
      hasSection lucyRichardsonDocument "lucy-richardson" ∧
    (LoadSettings stdText (some lucyRichardsonDocument) exampleSettings).loadedUnsh =
      hasSection lucyRichardsonDocument "unsharp_mask" ∧
    (LoadSettings stdText (some lucyRichardsonDocument) exampleSettings).loadedTCurve =
      hasSection lucyRichardsonDocument "tone_curve" := by
  have hwf : ∀ c ∈ lucyRichardsonDocument.GetChildren, WellFormedSection stdText c := by
    intro c hc
    have hcn : c = goodLucyRichardsonNode := by
      simpa [lucyRichardsonDocument, wxXmlNode.GetChildren] using hc
    subst hcn
    refine ⟨fun _ => ⟨by decide!, by decide!, by decide⟩, fun h => ?_, fun h => ?_, fun h => ?_⟩
    · exact absurd h (by decide)
    · exact absurd h (by decide)
    · exact absurd h (by decide)
  exact ⟨hwf, by decide, by decide, by decide,
    loadSettings_wellFormed stdText lucyRichardsonDocument exampleSettings hwf⟩

/-- Counterexample to C9 as stated: a document with a well-formed normalization section and a
document without sections leave exactly the same behind (result, settings and flags), so
nothing that `LoadSettings` returns or writes reports whether the normalization section is
present. -/
theorem loadSettings_normalization_unreported :
    hasSection normalizationDocument "normalization" = true ∧
    hasSection emptyDocument "normalization" = false ∧
    sectionFails stdText disabledNormalizationNode = false ∧
    LoadSettings stdText (some normalizationDocument) exampleSettings =
      LoadSettings stdText (some emptyDocument) exampleSettings ∧
    ¬ ∃ report : LoadResult → Bool, ∀ root ∈ [normalizationDocument, emptyDocument],
      report (LoadSettings stdText (some root) exampleSettings) =
        hasSection root "normalization" := by
  have hsame : LoadSettings stdText (some normalizationDocument) exampleSettings =
      LoadSettings stdText (some emptyDocument) exampleSettings := by decide!
  refine ⟨by decide, by decide, by decide!, hsame, ?_⟩
  rintro ⟨report, hreport⟩
  have h1 := hreport normalizationDocument (by simp)
  have h2 := hreport emptyDocument (by simp)
  rw [hsame, h2] at h1
  revert h1
  decide

/-! ### The decimal text functions reproduce every number within `1/20000` -/

namespace NumFormatter

theorem digitChar_toNat (d : Nat) (h : d < 10) : (Nat.digitChar d).toNat = 48 + d := by
  interval_cases d <;> rfl

theorem isDigit_digitChar (d : Nat) (h : d < 10) : IsDigit (Nat.digitChar d) := by
  unfold IsDigit
  rw [digitChar_toNat d h]
  omega

theorem lastDigits_length (len n : Nat) : (lastDigits len n).length = len := by
  induction len generalizing n with
  | zero => rfl
  | succ len ih => simp [lastDigits, ih]

theorem isDigit_lastDigits (len n : Nat) : ∀ c ∈ lastDigits len n, IsDigit c := by
  induction len generalizing n with
  | zero => intro c hc; simp [lastDigits] at hc
  | succ len ih =>
    intro c hc
    simp only [lastDigits, List.mem_append, List.mem_singleton] at hc
    rcases hc with hc | rfl
    · exact ih _ c hc
    · exact isDigit_digitChar _ (Nat.mod_lt _ (by norm_num))

end NumFormatter


theorem foldl_append_eq_join (l : List String) (acc : String) :
    l.foldl (fun r s => r ++ s) acc = acc ++ String.join l := by
  induction l generalizing acc with
  | nil => simp [String.join]
  | cons s l ih =>
    rw [List.foldl_cons, ih]
    simp only [String.join, List.foldl_cons]
    rw [ih ("" ++ s), String.empty_append, String.append_assoc]
    rfl

/-- The text that `CreateToneCurveSettingsNode` builds: every coordinate of the points, `x`
then `y`, formatted with `FLOAT_PREC` digits and followed by `";"`. -/
theorem buildPointsStr_eq_join (tf : TextFunctions) (points : List (ℚ × ℚ)) :
    buildPointsStr tf points =
      String.join ((flattenPoints points).map (fun v => tf.Format v 4 ++ ";")) := by
  have h : ∀ acc : String, points.foldl (fun str p =>
      str ++ (tf.Format p.1 FLOAT_PREC ++ ";" ++ tf.Format p.2 FLOAT_PREC ++ ";")) acc =
      acc ++ String.join ((flattenPoints points).map (fun v => tf.Format v 4 ++ ";")) := by
    induction points with
    | nil => intro acc; simp [flattenPoints, String.join]
    | cons p ps ih =>
      intro acc
      rw [List.foldl_cons, ih]
      simp only [flattenPoints, List.map_cons, String.join, List.foldl_cons, FLOAT_PREC]
      rw [foldl_append_eq_join _ ("" ++ (tf.Format p.1 4 ++ ";") ++ (tf.Format p.2 4 ++ ";")),
        foldl_append_eq_join _ ""]
      simp only [String.empty_append, String.append_assoc]
  have h2 := h ""
  rw [String.empty_append] at h2
  exact h2

/-- C12: the tree that `SaveSettings` builds.  The root has exactly four children, in the
order lucy-richardson (sigma, iterations, deringing), unsharp_mask (adaptive, sigma,
amount_min, amount_max, amount_threshold, amount_width), tone_curve (smooth, is_gamma, and a
gamma attribute exactly when the curve is in gamma mode; its text content lists `x` then `y`
of every control point in order, `2 * GetNumPoints` numbers, each followed by `";"`),
normalization (enabled, min, max); every boolean attribute is the token `"true"` or `"false"`
of the flag, and every float is formatted with 4 digits. -/
theorem saveSettings_tree (tf : TextFunctions) (s : ProcessingSettings) :
    SaveSettings tf s =
      wxXmlNode.mk .wxXML_ELEMENT_NODE "imppg" "" []
        [wxXmlNode.mk .wxXML_ELEMENT_NODE "lucy-richardson" ""
            [("sigma", tf.Format s.LucyRichardson.sigma 4),
              ("iterations", tf.FormatInt s.LucyRichardson.iterations),
              ("deringing", if s.LucyRichardson.deringing.enabled then "true" else "false")]
            [],
          wxXmlNode.mk .wxXML_ELEMENT_NODE "unsharp_mask" ""
            [("adaptive", if s.unsharpMasking.adaptive then "true" else "false"),
              ("sigma", tf.Format s.unsharpMasking.sigma 4),
              ("amount_min", tf.Format s.unsharpMasking.amountMin 4),
              ("amount_max", tf.Format s.unsharpMasking.amountMax 4),
              ("amount_threshold", tf.Format s.unsharpMasking.threshold 4),
              ("amount_width", tf.Format s.unsharpMasking.width 4)]
            [],
          wxXmlNode.mk .wxXML_ELEMENT_NODE "tone_curve" ""
            ([("smooth", if s.toneCurve.GetSmooth then "true" else "false"),
              ("is_gamma", if s.toneCurve.IsGammaMode then "true" else "false")] ++
              (if s.toneCurve.IsGammaMode then [("gamma", tf.Format s.toneCurve.GetGamma 4)]
                else []))
            [wxXmlNode.mk .wxXML_TEXT_NODE ""
              (String.join ((flattenPoints s.toneCurve.m_Points).map
                (fun v => tf.Format v 4 ++ ";"))) [] []],
          wxXmlNode.mk .wxXML_ELEMENT_NODE "normalization" ""
            [("enabled", if s.normalization.enabled then "true" else "false"),
              ("min", tf.Format s.normalization.min 4),
              ("max", tf.Format s.normalization.max 4)]
            []] ∧
    (flattenPoints s.toneCurve.m_Points).length = 2 * s.toneCurve.GetNumPoints := by
  refine ⟨?_, flattenPoints_length _⟩
  have hpoints := buildPointsStr_eq_join tf s.toneCurve.m_Points
  unfold SaveSettings CreateLucyRichardsonSettingsNode CreateUnsharpMaskingSettingsNode
    CreateToneCurveSettingsNode CreateNormalizationSettingsNode
  rw [map_getPoint_range, hpoints]
  cases hg : s.toneCurve.IsGammaMode <;>
  simp [wxXmlNode.newElement, wxXmlNode.newText, wxXmlNode.AddAttribute, wxXmlNode.AddChild,
    boolStr, trueStr, falseStr, FLOAT_PREC, XmlName.root, XmlName.lucyRichardson,
    XmlName.lrSigma, XmlName.lrIters, XmlName.lrDeringing, XmlName.unshMask,
    XmlName.unshAdaptive, XmlName.unshSigma, XmlName.unshAmountMin, XmlName.unshAmountMax,
    XmlName.unshThreshold, XmlName.unshWidth, XmlName.tcurve, XmlName.tcSmooth,
    XmlName.tcIsGamma, XmlName.tcGamma, XmlName.normalization, XmlName.normEnabled,
    XmlName.normMin, XmlName.normMax]

/-- The decimal `Format` writes exactly `precision` digits after the point. -/
theorem NumFormatter.format_fraction_digits (value : ℚ) (precision : Nat) :
    ∃ front frac, (NumFormatter.Format value precision).data = front ++ '.' :: frac ∧
      frac.length = precision ∧ ∀ c ∈ frac, NumFormatter.IsDigit c :=
  ⟨_, NumFormatter.lastDigits precision _, rfl, NumFormatter.lastDigits_length _ _,
    NumFormatter.isDigit_lastDigits _ _⟩

/-! ### The bounds of the histogram -/

/-- C14 fails on the code: for a selection of the single pixel `1/2` the histogram returned
has `minValue = 1/2` and `maxValue = -FLT_MAX` (the first pixel takes the `minValue` branch
and the `else if` for `maxValue` is skipped), so the pixel is above `maxValue`; for the two
pixels `3/4, 1/4` it has `minValue = 1/4` and `maxValue = -FLT_MAX`. -/
theorem determineHistogram_maxValue_unset :
    histogramBounds id (uniformImage (1 / 2)) ⟨0, 0, 1, 1⟩ = some (1 / 2, -FLT_MAX) ∧
    ¬ ((1 / 2 : ℚ) ≤ -FLT_MAX) ∧
    histogramBounds id decreasingImage ⟨0, 0, 2, 1⟩ = some (1 / 4, -FLT_MAX) := by
  decide!

/-! ### The bins of the histogram for pixel values in `[0, 1]` -/

theorem incrementAt_sum (vs : List Nat) (i : Nat) (hi : i < vs.length) :
    (incrementAt vs i).sum = vs.sum + 1 := by
  induction vs generalizing i with
  | nil => simp at hi
  | cons v vs ih =>
    cases i with
    | zero =>
      simp only [incrementAt, List.sum_cons]
      omega
    | succ i =>
      simp only [List.length_cons, Nat.add_lt_add_iff_right] at hi
      simp only [incrementAt, List.sum_cons, ih i hi]
      omega

/-- A fold whose every step succeeds and moves an invariant from count `n` to count `n + c`
succeeds and moves it to the count `n + c * length`. -/
theorem foldlM_count {α : Type} (Q : Nat → Histogram → Prop) (c : Nat)
    (f : Histogram → α → Option Histogram) (l : List α)
    (hstep : ∀ a ∈ l, ∀ n h, Q n h → ∃ h2, f h a = some h2 ∧ Q (n + c) h2)
    (n : Nat) (h : Histogram) (hQ : Q n h) :
    ∃ h2, l.foldlM f h = some h2 ∧ Q (n + c * l.length) h2 := by
  induction l generalizing n h with
  | nil => exact ⟨h, rfl, by simpa using hQ⟩
  | cons a l ih =>
    obtain ⟨h1, hf, hQ1⟩ := hstep a (List.mem_cons_self a l) n h hQ
    obtain ⟨h2, hfold, hQ2⟩ := ih (fun b hb => hstep b (List.mem_cons_of_mem a hb)) (n + c) h1 hQ1
    refine ⟨h2, ?_, ?_⟩
    · simp [List.foldlM, hf, hfold]
    · have he : n + c * (a :: l).length = n + c + c * l.length := by
        rw [List.length_cons, Nat.mul_succ]
        omega
      rw [he]
      exact hQ2

theorem foldl_maxCount_spec (values : List Nat) (m : Nat) :
    m ≤ values.foldl (fun maxCount v => if v > maxCount then v else maxCount) m ∧
    (∀ v ∈ values, v ≤ values.foldl (fun maxCount v => if v > maxCount then v else maxCount) m) ∧
    (values.foldl (fun maxCount v => if v > maxCount then v else maxCount) m = m ∨
      values.foldl (fun maxCount v => if v > maxCount then v else maxCount) m ∈ values) := by
  induction values generalizing m with
  | nil => simp
  | cons v vs ih =>
    simp only [List.foldl_cons, List.mem_cons]
    by_cases hv : v > m
    · rw [if_pos hv]
      obtain ⟨h1, h2, h3⟩ := ih v
      refine ⟨by omega, ?_, ?_⟩
      · intro w hw
        rcases hw with rfl | hw
        · exact h1
        · exact h2 w hw
      · rcases h3 with h3 | h3
        · exact Or.inr (Or.inl h3)
        · exact Or.inr (Or.inr h3)
    · rw [if_neg hv]
      obtain ⟨h1, h2, h3⟩ := ih m
      refine ⟨h1, ?_, ?_⟩
      · intro w hw
        rcases hw with rfl | hw
        · omega
        · exact h2 w hw
      · rcases h3 with h3 | h3
        · exact Or.inl h3
        · exact Or.inr (Or.inr h3)

/-- The final loop of `DetermineHistogram` computes the largest bin count. -/
theorem histogramMaxCount_spec (values : List Nat) (hne : values ≠ []) :
    (∀ v ∈ values, v ≤ histogramMaxCount values) ∧ histogramMaxCount values ∈ values := by
  obtain ⟨-, h2, h3⟩ := foldl_maxCount_spec values 0
  refine ⟨h2, ?_⟩
  rcases h3 with h3 | h3
  · obtain ⟨v, vs, rfl⟩ := List.exists_cons_of_ne_nil hne
    have hv := h2 v (List.mem_cons_self v vs)
    unfold histogramMaxCount
    rw [h3] at hv ⊢
    have hv0 : v = 0 := by omega
    rw [hv0]
    exact List.mem_cons_self 0 vs
  · exact h3

/-- C15: for an image and a selection whose selected pixel values all lie in `[0, 1]`, the bin
index computed for each selected pixel is below 1024, `DetermineHistogram` returns a histogram
(no assertion fails) of exactly 1024 bins, the bin counts sum to the selection's pixel count,
and `maxCount` is the largest bin count; the pixel count is `width * height` for a selection
of non-negative width and height. -/
theorem determineHistogram_bins (round : ℚ → ℚ) (img : c_Image) (selection : wxRect)
    (hmono : Monotone round) (h0 : round 0 = 0) (h1023 : round 1023 = 1023)
    (hpix : ∀ y x : Nat, (y : Int) < selection.height → (x : Int) < selection.width →
      0 ≤ img.pixel (selection.y + y) (selection.x + x) ∧
        img.pixel (selection.y + y) (selection.x + x) ≤ 1) :
    (∀ y x : Nat, (y : Int) < selection.height → (x : Int) < selection.width →
      ∃ hbin, castUnsigned (round (img.pixel (selection.y + y) (selection.x + x) *
        ((NUM_HISTOGRAM_BINS : ℚ) - 1))) = some hbin ∧ hbin < NUM_HISTOGRAM_BINS) ∧
    (∃ h, DetermineHistogram round img selection = some h ∧
      h.values.length = 1024 ∧
      h.values.sum = selection.pixelCount ∧
      (∀ v ∈ h.values, v ≤ h.maxCount) ∧ h.maxCount ∈ h.values) ∧
    (0 ≤ selection.width → 0 ≤ selection.height →
      (selection.pixelCount : Int) = selection.width * selection.height) := by
  refine ⟨?_, ?_, ?_⟩
  · intro y x hy hx
    obtain ⟨hp0, hp1⟩ := hpix y x hy hx
    exact ⟨_, castUnsigned_bin round _ hmono h0 h1023 hp0 hp1⟩
  · have hrow : ∀ y ∈ List.range selection.height.toNat, ∀ n h,
        (h.values.length = 1024 ∧ h.values.sum = n) → ∃ h2,
        histogramRow round img selection h y = some h2 ∧
        (h2.values.length = 1024 ∧ h2.values.sum = n + selection.width.toNat) := by
      intro y hy n h hQ
      have hy2 : (y : Int) < selection.height := Int.lt_toNat.mp (List.mem_range.mp hy)
      have hfold := foldlM_count (fun n h => h.values.length = 1024 ∧ h.values.sum = n) 1
        (fun h (x : Nat) =>
          histogramPixel round h (img.pixel (selection.y + y) (selection.x + x)))
        (List.range selection.width.toNat)
        (fun x hx n h hQ => by
          have hx2 : (x : Int) < selection.width := Int.lt_toNat.mp (List.mem_range.mp hx)
          obtain ⟨hp0, hp1⟩ := hpix y x hy2 hx2
          obtain ⟨h2, hstep, hvals⟩ := histogramPixel_values round _ hmono h0 h1023 hp0 hp1 h
          obtain ⟨-, hlt⟩ := castUnsigned_bin round _ hmono h0 h1023 hp0 hp1
          refine ⟨h2, hstep, ?_, ?_⟩
          · rw [hvals, incrementAt_length]
            exact hQ.1
          · rw [hvals, incrementAt_sum _ _ (by rw [hQ.1]; exact hlt), hQ.2]) n h hQ
      simpa [histogramRow] using hfold
    obtain ⟨h2, hfold, hlen, hsum⟩ := foldlM_count
      (fun n h => h.values.length = 1024 ∧ h.values.sum = n) selection.width.toNat
      (histogramRow round img selection) (List.range selection.height.toNat) hrow 0
      { values := List.replicate NUM_HISTOGRAM_BINS 0, minValue := FLT_MAX,
        maxValue := -FLT_MAX, maxCount := 0 }
      ⟨by rw [List.length_replicate]; rfl, by rw [List.sum_replicate, smul_zero]⟩
    have hne : h2.values ≠ [] := by
      intro hnil
      rw [hnil] at hlen
      simp at hlen
    obtain ⟨hmax1, hmax2⟩ := histogramMaxCount_spec h2.values hne
    refine ⟨{ h2 with maxCount := histogramMaxCount h2.values }, ?_, hlen, ?_, hmax1, hmax2⟩
    · simp [DetermineHistogram, hfold]
    · simp only [hsum, wxRect.pixelCount, List.length_range, Nat.zero_add]
  · intro hw hh
    simp only [wxRect.pixelCount, Nat.cast_mul, Int.toNat_of_nonneg hw, Int.toNat_of_nonneg hh]

/-- Witness for C15: exact products and the selection of the two pixels `3/4, 1/4`. -/
theorem determineHistogram_bins_witness :
    (∀ y x : Nat, (y : Int) < 1 → (x : Int) < 2 →
      ∃ hbin, castUnsigned (id (decreasingImage.pixel ((0 : Int) + y) ((0 : Int) + x) *
        ((NUM_HISTOGRAM_BINS : ℚ) - 1))) = some hbin ∧ hbin < NUM_HISTOGRAM_BINS) ∧
    (∃ h, DetermineHistogram id decreasingImage ⟨0, 0, 2, 1⟩ = some h ∧
      h.values.length = 1024 ∧
      h.values.sum = (⟨0, 0, 2, 1⟩ : wxRect).pixelCount ∧
      (∀ v ∈ h.values, v ≤ h.maxCount) ∧ h.maxCount ∈ h.values) ∧
    ((0 : Int) ≤ 2 → (0 : Int) ≤ 1 → ((⟨0, 0, 2, 1⟩ : wxRect).pixelCount : Int) = 2 * 1) :=
  determineHistogram_bins id decreasingImage ⟨0, 0, 2, 1⟩ monotone_id rfl rfl
    (fun y x _ _ => by
      show 0 ≤ (if (0 : Int) + x = 0 then (3 / 4 : ℚ) else 1 / 4) ∧
        (if (0 : Int) + x = 0 then (3 / 4 : ℚ) else 1 / 4) ≤ 1
      split_ifs <;> norm_num)


/-- A fold whose every step lowers `minValue` (or keeps it) and leaves it with a property of
the element that lower values keep: the final `minValue` has the property of every element. -/
theorem foldlM_minValue {α : Type} (P : α → ℚ → Prop)
    (hP : ∀ a q q2, P a q → q2 ≤ q → P a q2)
    (f : Histogram → α → Option Histogram)
    (hstep : ∀ a h h2, f h a = some h2 → h2.minValue ≤ h.minValue ∧ P a h2.minValue)
    (l : List α) (h h2 : Histogram) (hfold : l.foldlM f h = some h2) :
    h2.minValue ≤ h.minValue ∧ ∀ a ∈ l, P a h2.minValue := by
  induction l generalizing h with
  | nil =>
    simp only [List.foldlM, pure, Option.some.injEq] at hfold
    subst hfold
    exact ⟨le_refl _, fun a ha => absurd ha (List.not_mem_nil a)⟩
  | cons a l ih =>
    simp only [List.foldlM, bind, Option.bind] at hfold
    cases hf : f h a with
    | none => rw [hf] at hfold; cases hfold
    | some h1 =>
      rw [hf] at hfold
      obtain ⟨hle1, hPa⟩ := hstep a h h1 hf
      obtain ⟨hle2, hall⟩ := ih h1 hfold
      refine ⟨le_trans hle2 hle1, ?_⟩
      intro b hb
      rcases List.mem_cons.mp hb with rfl | hb
      · exact hP b _ _ hPa hle2
      · exact hall b hb

theorem histogramPixel_minValue (round : ℚ → ℚ) (h h2 : Histogram) (p : ℚ)
    (hstep : histogramPixel round h p = some h2) :
    h2.minValue ≤ h.minValue ∧ h2.minValue ≤ p := by
  unfold histogramPixel at hstep
  simp only at hstep
  split at hstep
  · cases hstep
  · split_ifs at hstep with hbin hlt hgt
    · cases hstep
      exact ⟨le_of_lt hlt, le_refl _⟩
    · cases hstep
      exact ⟨le_refl _, not_lt.mp hlt⟩
    · cases hstep
      exact ⟨le_refl _, not_lt.mp hlt⟩

/-- The `minValue` of the histogram that `DetermineHistogram` returns is a lower bound of the
selected pixel values (the part of C14 that the code does keep). -/
theorem determineHistogram_minValue_le (round : ℚ → ℚ) (img : c_Image) (selection : wxRect)
    (h : Histogram) (hret : DetermineHistogram round img selection = some h) (y x : Nat)
    (hy : (y : Int) < selection.height) (hx : (x : Int) < selection.width) :
    h.minValue ≤ img.pixel (selection.y + y) (selection.x + x) := by
  unfold DetermineHistogram at hret
  simp only at hret
  split at hret
  · cases hret
  · rename_i h1 hfold
    cases hret
    have hrow : ∀ (y : Nat) (h h2 : Histogram), histogramRow round img selection h y = some h2 →
        h2.minValue ≤ h.minValue ∧ ∀ x : Nat, (x : Int) < selection.width →
          h2.minValue ≤ img.pixel (selection.y + y) (selection.x + x) := by
      intro y h h2 hr
      obtain ⟨hle, hall⟩ := foldlM_minValue
        (fun (x : Nat) q => q ≤ img.pixel (selection.y + y) (selection.x + x))
        (fun a q q2 hq hle => le_trans hle hq)
        (fun h (x : Nat) =>
          histogramPixel round h (img.pixel (selection.y + y) (selection.x + x)))
        (fun a h h2 hs => histogramPixel_minValue round h h2 _ hs)
        (List.range selection.width.toNat) h h2 hr
      exact ⟨hle, fun x hx => hall x (List.mem_range.mpr (Int.lt_toNat.mpr hx))⟩
    obtain ⟨-, hall⟩ := foldlM_minValue
      (fun (y : Nat) q => ∀ x : Nat, (x : Int) < selection.width →
        q ≤ img.pixel (selection.y + y) (selection.x + x))
      (fun a q q2 hq hle x hx => le_trans hle (hq x hx))
      (histogramRow round img selection)
      (fun a h h2 hs => hrow a h h2 hs)
      (List.range selection.height.toNat) _ h1 hfold
    exact hall y (List.mem_range.mpr (Int.lt_toNat.mpr hy)) x hx

/-! ### Loading settings: the sections that are absent from the document -/

/-- The body of the loop of `LoadSettings` leaves the settings of every section other than
the one it parses as they are. -/
theorem loadChild_frame (tf : TextFunctions) (child : wxXmlNode) (st st2 : LoadResult)
    (h : loadChild tf child st = some st2) :
    (child.GetName ≠ "lucy-richardson" →
      st2.settings.LucyRichardson = st.settings.LucyRichardson) ∧
    (child.GetName ≠ "unsharp_mask" →
      st2.settings.unsharpMasking = st.settings.unsharpMasking) ∧
    (child.GetName ≠ "tone_curve" → st2.settings.toneCurve = st.settings.toneCurve) ∧
    (child.GetName ≠ "normalization" →
      st2.settings.normalization = st.settings.normalization) := by
  unfold loadChild at h
  simp only [XmlName.lucyRichardson, XmlName.unshMask, XmlName.tcurve,
    XmlName.normalization] at h
  split_ifs at h with h1 h2 h3 h4
  · cases hp : ParseLucyRichardsonSettings tf child with
    | none => rw [hp] at h; cases h
    | some v =>
      rw [hp] at h
      cases h
      exact ⟨fun hne => absurd h1 hne, fun _ => rfl, fun _ => rfl, fun _ => rfl⟩
  · cases hp : ParseUnsharpMaskingSettings tf child with
    | none => rw [hp] at h; cases h
    | some v =>
      rw [hp] at h
      cases h
      exact ⟨fun _ => rfl, fun hne => absurd h2 hne, fun _ => rfl, fun _ => rfl⟩
  · cases hp : ParseToneCurveSettings tf child tf.defaultToneCurve with
    | none => rw [hp] at h; cases h
    | some v =>
      rw [hp] at h
      cases h
      exact ⟨fun _ => rfl, fun _ => rfl, fun hne => absurd h3 hne, fun _ => rfl⟩
  · cases hp : ParseNormalizationSetings tf child with
    | none => rw [hp] at h; cases h
    | some v =>
      rw [hp] at h
      cases h
      exact ⟨fun _ => rfl, fun _ => rfl, fun _ => rfl, fun hne => absurd h4 hne⟩
  · cases h
    exact ⟨fun _ => rfl, fun _ => rfl, fun _ => rfl, fun _ => rfl⟩

/-- The loop of `LoadSettings` leaves the settings of a section as they are when no child of
the root has the name of the section. -/
theorem loadChildren_frame (tf : TextFunctions) (children : List wxXmlNode) (st : LoadResult) :
    ((∀ c ∈ children, c.GetName ≠ "lucy-richardson") →
      (loadChildren tf children st).settings.LucyRichardson = st.settings.LucyRichardson) ∧
    ((∀ c ∈ children, c.GetName ≠ "unsharp_mask") →
      (loadChildren tf children st).settings.unsharpMasking = st.settings.unsharpMasking) ∧
    ((∀ c ∈ children, c.GetName ≠ "tone_curve") →
      (loadChildren tf children st).settings.toneCurve = st.settings.toneCurve) ∧
    ((∀ c ∈ children, c.GetName ≠ "normalization") →
      (loadChildren tf children st).settings.normalization = st.settings.normalization) := by
  induction children generalizing st with
  | nil => exact ⟨fun _ => rfl, fun _ => rfl, fun _ => rfl, fun _ => rfl⟩
  | cons child rest ih =>
    unfold loadChildren
    cases hc : loadChild tf child st with
    | none => exact ⟨fun _ => rfl, fun _ => rfl, fun _ => rfl, fun _ => rfl⟩
    | some st2 =>
      obtain ⟨f1, f2, f3, f4⟩ := loadChild_frame tf child st st2 hc
      obtain ⟨g1, g2, g3, g4⟩ := ih st2
      refine ⟨fun h => ?_, fun h => ?_, fun h => ?_, fun h => ?_⟩
      · exact (g1 (fun c hm => h c (List.mem_cons_of_mem child hm))).trans
          (f1 (h child (List.mem_cons_self child rest)))
      · exact (g2 (fun c hm => h c (List.mem_cons_of_mem child hm))).trans
          (f2 (h child (List.mem_cons_self child rest)))
      · exact (g3 (fun c hm => h c (List.mem_cons_of_mem child hm))).trans
          (f3 (h child (List.mem_cons_self child rest)))
      · exact (g4 (fun c hm => h c (List.mem_cons_of_mem child hm))).trans
          (f4 (h child (List.mem_cons_self child rest)))

theorem hasSection_eq_false (root : wxXmlNode) (name : String)
    (h : hasSection root name = false) : ∀ c ∈ root.GetChildren, c.GetName ≠ name := by
  intro c hc hname
  have hany : hasSection root name = true := by
    unfold hasSection
    rw [List.any_eq_true]
    exact ⟨c, hc, by simpa using hname⟩
  rw [h] at hany
  cases hany

/-- C16: when `LoadSettings` succeeds, the document has been read and the fields of every
section absent from the document keep their prior values (`LucyRichardson.sigma` and
`iterations`, all of `unsharpMasking`, `toneCurve`, `normalization.min` and `max`), except
that `LucyRichardson.deringing.enabled` and `normalization.enabled` are false when their
section is absent, whatever their value before the call. -/
theorem loadSettings_frame (tf : TextFunctions) (doc : Option wxXmlNode)
    (settings : ProcessingSettings) (hok : (LoadSettings tf doc settings).result = true) :
    ∃ root, doc = some root ∧
      (hasSection root "lucy-richardson" = false →
        (LoadSettings tf doc settings).settings.LucyRichardson.sigma =
          settings.LucyRichardson.sigma ∧
        (LoadSettings tf doc settings).settings.LucyRichardson.iterations =
          settings.LucyRichardson.iterations ∧
        (LoadSettings tf doc settings).settings.LucyRichardson.deringing.enabled = false) ∧
      (hasSection root "unsharp_mask" = false →
        (LoadSettings tf doc settings).settings.unsharpMasking = settings.unsharpMasking) ∧
      (hasSection root "tone_curve" = false →
        (LoadSettings tf doc settings).settings.toneCurve = settings.toneCurve) ∧
      (hasSection root "normalization" = false →
        (LoadSettings tf doc settings).settings.normalization.min =
          settings.normalization.min ∧
        (LoadSettings tf doc settings).settings.normalization.max =
          settings.normalization.max ∧
        (LoadSettings tf doc settings).settings.normalization.enabled = false) := by
  cases doc with
  | none => cases hok
  | some root =>
    obtain ⟨g1, g2, g3, g4⟩ := loadChildren_frame tf root.GetChildren (loadStart settings)
    refine ⟨root, rfl, fun h => ?_, fun h => ?_, fun h => ?_, fun h => ?_⟩
    · have e := g1 (hasSection_eq_false root _ h)
      have e1 : (loadChildren tf root.GetChildren
          (loadStart settings)).settings.LucyRichardson.sigma
          = (loadStart settings).settings.LucyRichardson.sigma := by rw [e]
      have e2 : (loadChildren tf root.GetChildren
          (loadStart settings)).settings.LucyRichardson.iterations
          = (loadStart settings).settings.LucyRichardson.iterations := by rw [e]
      have e3 : (loadChildren tf root.GetChildren
          (loadStart settings)).settings.LucyRichardson.deringing.enabled
          = (loadStart settings).settings.LucyRichardson.deringing.enabled := by rw [e]
      exact ⟨e1, e2, e3⟩
    · exact g2 (hasSection_eq_false root _ h)
    · exact g3 (hasSection_eq_false root _ h)
    · have e := g4 (hasSection_eq_false root _ h)
      have e1 : (loadChildren tf root.GetChildren (loadStart settings)).settings.normalization.min
          = (loadStart settings).settings.normalization.min := by rw [e]
      have e2 : (loadChildren tf root.GetChildren (loadStart settings)).settings.normalization.max
          = (loadStart settings).settings.normalization.max := by rw [e]
      have e3 : (loadChildren tf root.GetChildren
          (loadStart settings)).settings.normalization.enabled
          = (loadStart settings).settings.normalization.enabled := by rw [e]
      exact ⟨e1, e2, e3⟩

/-- Witness for C16: a document with a lucy-richardson section only, loaded into the example
settings (in which `normalization.enabled` is true). -/
theorem loadSettings_frame_witness :
    (LoadSettings stdText (some lucyRichardsonDocument) exampleSettings).result = true ∧
    hasSection lucyRichardsonDocument "normalization" = false ∧
    exampleSettings.normalization.enabled = true ∧
    ∃ root, some lucyRichardsonDocument = some root ∧
      (hasSection root "lucy-richardson" = false →
        (LoadSettings stdText (some lucyRichardsonDocument)
          exampleSettings).settings.LucyRichardson.sigma =
          exampleSettings.LucyRichardson.sigma ∧
        (LoadSettings stdText (some lucyRichardsonDocument)
          exampleSettings).settings.LucyRichardson.iterations =
          exampleSettings.LucyRichardson.iterations ∧
        (LoadSettings stdText (some lucyRichardsonDocument)
          exampleSettings).settings.LucyRichardson.deringing.enabled = false) ∧
      (hasSection root "unsharp_mask" = false →
        (LoadSettings stdText (some lucyRichardsonDocument)
          exampleSettings).settings.unsharpMasking = exampleSettings.unsharpMasking) ∧
      (hasSection root "tone_curve" = false →
        (LoadSettings stdText (some lucyRichardsonDocument)
          exampleSettings).settings.toneCurve = exampleSettings.toneCurve) ∧
      (hasSection root "normalization" = false →
        (LoadSettings stdText (some lucyRichardsonDocument)
          exampleSettings).settings.normalization.min = exampleSettings.normalization.min ∧
        (LoadSettings stdText (some lucyRichardsonDocument)
          exampleSettings).settings.normalization.max = exampleSettings.normalization.max ∧
        (LoadSettings stdText (some lucyRichardsonDocument)
          exampleSettings).settings.normalization.enabled = false) := by
  have hok : (LoadSettings stdText (some lucyRichardsonDocument) exampleSettings).result =
      true := by decide!
  exact ⟨hok, by decide, by decide,
    loadSettings_frame stdText (some lucyRichardsonDocument) exampleSettings hok⟩

/-! ### The step model: the cell is null where the dialog acts on the end of the run -/

theorem step_safe (s s2 : AlignmentRun) (a : RunAction) (hs : s.Safe)
    (h : s.step a = some s2) : s2.Safe := by
  obtain ⟨dlg, pc, worker, abortRequested, pending⟩ := s
  cases a with
  | onInit =>
    simp only [AlignmentRun.step] at h
    split_ifs at h
    cases h
    trivial
  | workerPost event =>
    simp only [AlignmentRun.step] at h
    split_ifs at h
    cases h
    exact hs
  | workerTerminal event =>
    simp only [AlignmentRun.step] at h
    split_ifs at h
    cases h
    exact hs
  | workerRetire =>
    simp only [AlignmentRun.step] at h
    split_ifs at h
    cases h
    cases pc <;> simp [AlignmentRun.Safe]
  | dispatch =>
    simp only [AlignmentRun.step] at h
    split_ifs at h with hpc
    simp only at hpc
    subst hpc
    cases pending with
    | nil => cases h
    | cons event rest =>
      simp only at h
      split_ifs at h <;> cases h <;> trivial
  | cancelPressed =>
    simp only [AlignmentRun.step] at h
    split_ifs at h
    cases h
    trivial
  | handlerStep =>
    cases pc with
    | created => cases h
    | eventLoop => cases h
    | closed => cases h
    | terminalWait event =>
      simp only [AlignmentRun.step, c_ImageAlignmentProgress.IsProcessingInProgress] at h
      split_ifs at h with hc
      · cases h
        trivial
      · cases h
        simpa [AlignmentRun.Safe] using hc
    | terminalMessageBox event =>
      simp only [AlignmentRun.step] at h
      split_ifs at h <;> cases h <;> trivial
    | endModalCheck retCode =>
      simp only [AlignmentRun.step, c_ImageAlignmentProgress.IsProcessingInProgress] at h
      split_ifs at h with hc
      · cases h
        trivial
      · cases h
        simpa [AlignmentRun.Safe] using hc
    | endModalAbort retCode =>
      simp only [AlignmentRun.step] at h
      split_ifs at h with hc
      · cases h
        intro _
        rfl
      · cases h
        intro hcell
        exact absurd hcell hc
    | endModalWait retCode =>
      simp only [AlignmentRun.step, c_ImageAlignmentProgress.IsProcessingInProgress] at h
      split_ifs at h with hc
      · cases h
        exact hs
      · cases h
        simpa [AlignmentRun.Safe] using hc
    | baseEndModal retCode =>
      simp only [AlignmentRun.step] at h
      cases h
      exact hs

theorem steps_safe (actions : List RunAction) (s s2 : AlignmentRun) (hs : s.Safe)
    (h : s.steps actions = some s2) : s2.Safe := by
  induction actions generalizing s with
  | nil =>
    simp only [AlignmentRun.steps, Option.some.injEq] at h
    subst h
    exact hs
  | cons a actions ih =>
    simp only [AlignmentRun.steps] at h
    cases hstep : s.step a with
    | none => rw [hstep] at h; cases h
    | some s1 =>
      rw [hstep] at h
      exact ih s1 (step_safe s s1 a hs hstep) h

/-- C13: in every state that a run of the dialog and its worker reaches, the dialog is at the
terminal message box of `OnThreadEvent`, at the call `wxDialog::EndModal`, or closed, only
when `m_WorkerThread` holds no worker; and when `EndModal` waits for a registered worker,
`AbortProcessing` has been called on it. -/
theorem dialog_acts_without_worker (params : AlignmentParameters_t) (actions : List RunAction)
    (s : AlignmentRun) (hrun : (AlignmentRun.start params).steps actions = some s) :
    (∀ event, s.pc = .terminalMessageBox event → s.dlg.IsProcessingInProgress = false) ∧
    (∀ retCode, s.pc = .baseEndModal retCode → s.dlg.IsProcessingInProgress = false) ∧
    (s.pc = .closed → s.dlg.IsProcessingInProgress = false) ∧
    (∀ retCode, s.pc = .endModalWait retCode → s.dlg.IsProcessingInProgress = true →
      s.abortRequested = true) := by
  have hsafe : s.Safe := steps_safe actions (AlignmentRun.start params) s trivial hrun
  unfold AlignmentRun.Safe at hsafe
  unfold c_ImageAlignmentProgress.IsProcessingInProgress
  refine ⟨fun event hpc => ?_, fun retCode hpc => ?_, fun hpc => ?_, fun retCode hpc => ?_⟩
  · rw [hpc] at hsafe
    exact hsafe
  · rw [hpc] at hsafe
    exact hsafe
  · rw [hpc] at hsafe
    exact hsafe
  · rw [hpc] at hsafe
    exact hsafe

/-- Witness for C13: the worker posts `EID_COMPLETED`, the dialog takes the event and waits
while the worker is still registered, the worker clears its handle, and the dialog reaches
the message box. -/
theorem dialog_acts_without_worker_witness :
    ∃ s, (AlignmentRun.start ⟨.PHASE_CORRELATION, 5⟩).steps waitingRun = some s ∧
      s.pc = .terminalMessageBox (terminalEvent .EID_COMPLETED "") ∧
      s.dlg.IsProcessingInProgress = false := by
  obtain ⟨s, hs⟩ : ∃ s, (AlignmentRun.start ⟨.PHASE_CORRELATION, 5⟩).steps waitingRun = some s :=
    Option.isSome_iff_exists.mp (by decide!)
  have hpc : ((AlignmentRun.start ⟨.PHASE_CORRELATION, 5⟩).steps waitingRun).map
      (fun s => s.pc) = some (.terminalMessageBox (terminalEvent .EID_COMPLETED "")) := by
    decide!
  rw [hs] at hpc
  simp only [Option.map_some', Option.some.injEq] at hpc
  exact ⟨s, hs, hpc,
    (dialog_acts_without_worker ⟨.PHASE_CORRELATION, 5⟩ waitingRun s hs).1 _ hpc⟩

/-! ### The step model: the value that `AlignImages` returns -/

theorem onThreadEvent_endModalCode (dlg : c_ImageAlignmentProgress) (event : wxThreadEvent)
    (h : event.isTerminal = false) :
    (dlg.OnThreadEvent event).endModalCode = dlg.endModalCode := by
  obtain ⟨id, int, string, payload⟩ := event
  cases id <;> simp [wxThreadEvent.isTerminal] at h <;>
    simp only [c_ImageAlignmentProgress.OnThreadEvent] <;> split_ifs <;> rfl

theorem step_onlyCancel (s s2 : AlignmentRun) (a : RunAction) (hs : s.OnlyCancel)
    (h : s.step a = some s2) : s2.OnlyCancel := by
  obtain ⟨dlg, pc, worker, abortRequested, pending⟩ := s
  obtain ⟨hcode, hpc⟩ := hs
  simp only at hcode hpc
  cases a with
  | onInit =>
    simp only [AlignmentRun.step] at h
    split_ifs at h
    cases h
    exact ⟨hcode, trivial⟩
  | workerPost event =>
    simp only [AlignmentRun.step] at h
    split_ifs at h
    cases h
    exact ⟨hcode, hpc⟩
  | workerTerminal event =>
    simp only [AlignmentRun.step] at h
    split_ifs at h
    cases h
    exact ⟨hcode, hpc⟩
  | workerRetire =>
    simp only [AlignmentRun.step] at h
    split_ifs at h
    cases h
    exact ⟨hcode, hpc⟩
  | dispatch =>
    simp only [AlignmentRun.step] at h
    split_ifs at h with hpc2
    simp only at hpc2
    subst hpc2
    cases pending with
    | nil => cases h
    | cons event rest =>
      simp only at h
      split_ifs at h with ht
      · cases h
        exact ⟨hcode, trivial⟩
      · cases h
        refine ⟨?_, trivial⟩
        simp only
        rw [onThreadEvent_endModalCode dlg event (by simpa using ht)]
        exact hcode
  | cancelPressed =>
    simp only [AlignmentRun.step] at h
    split_ifs at h
    cases h
    exact ⟨hcode, rfl⟩
  | handlerStep =>
    cases pc with
    | created => cases h
    | eventLoop => cases h
    | closed => cases h
    | terminalWait event =>
      simp only [AlignmentRun.step] at h
      split_ifs at h <;> cases h <;> exact ⟨hcode, trivial⟩
    | terminalMessageBox event =>
      simp only [AlignmentRun.step] at h
      split_ifs at h
      · cases h
        exact ⟨hcode, rfl⟩
      · cases h
        exact ⟨hcode, trivial⟩
    | endModalCheck retCode =>
      simp only [AlignmentRun.step] at h
      split_ifs at h <;> cases h <;> exact ⟨hcode, hpc⟩
    | endModalAbort retCode =>
      simp only [AlignmentRun.step] at h
      split_ifs at h <;> cases h <;> exact ⟨hcode, hpc⟩
    | endModalWait retCode =>
      simp only [AlignmentRun.step] at h
      split_ifs at h <;> cases h <;> exact ⟨hcode, hpc⟩
    | baseEndModal retCode =>
      simp only [AlignmentRun.step] at h
      cases h
      refine ⟨Or.inr ?_, trivial⟩
      simp only at hpc ⊢
      rw [hpc]

theorem steps_onlyCancel (actions : List RunAction) (s s2 : AlignmentRun) (hs : s.OnlyCancel)
    (h : s.steps actions = some s2) : s2.OnlyCancel := by
  induction actions generalizing s with
  | nil =>
    simp only [AlignmentRun.steps, Option.some.injEq] at h
    subst h
    exact hs
  | cons a actions ih =>
    simp only [AlignmentRun.steps] at h
    cases hstep : s.step a with
    | none => rw [hstep] at h; cases h
    | some s1 =>
      rw [hstep] at h
      exact ih s1 (step_onlyCancel s s1 a hs hstep) h

/-- On no run does `AlignImages` return `true`: the only code that reaches
`wxDialog::EndModal` is `wxID_CANCEL`. -/
theorem alignImages_ne_true (params : AlignmentParameters_t) (actions : List RunAction) :
    AlignImages params actions ≠ some true := by
  unfold AlignImages
  cases hrun : (AlignmentRun.start params).steps actions with
  | none => simp
  | some s =>
    have honly := steps_onlyCancel actions (AlignmentRun.start params) s
      ⟨Or.inl rfl, trivial⟩ hrun
    rcases honly.1 with hc | hc
    · simp [hc]
    · simp only [hc, ne_eq, Option.some.injEq, decide_eq_true_eq]
      decide

/-- C11 fails on the code: on the run in which the worker posts `EID_COMPLETED` and retires
and the dialog handles the event, `ShowModal` has not returned (the dialog stays open); when
the user then closes the dialog with its Cancel button, `AlignImages` returns `false`; and on
no run at all does `AlignImages` return `true`.  On a run that ends with `EID_ABORTED` it
returns `false`. -/
theorem alignImages_completed_returns_false :
    AlignImages ⟨.PHASE_CORRELATION, 5⟩ completedRun = none ∧
    AlignImages ⟨.PHASE_CORRELATION, 5⟩ completedThenCancelledRun = some false ∧
    AlignImages ⟨.PHASE_CORRELATION, 5⟩ abortedRun = some false ∧
    (∀ (params : AlignmentParameters_t) (actions : List RunAction),
      AlignImages params actions ≠ some true) :=
  ⟨by decide!, by decide!, by decide!, alignImages_ne_true⟩

/-- The step model agrees with `OnThreadEvent` on the terminal events: once the worker has
cleared its handle, handling `EID_COMPLETED` step by step leaves the dialog that
`OnThreadEvent` gives, in the event loop; handling `EID_ABORTED` leaves the dialog that
`OnThreadEvent` gives, closed. -/
theorem terminal_handler_agrees (s : AlignmentRun) (event : wxThreadEvent)
    (rest : List wxThreadEvent) (hpc : s.pc = .eventLoop) (hpending : s.pending = event :: rest)
    (hcell : s.dlg.m_WorkerThread = false) :
    (event.id = .EID_COMPLETED →
      s.steps [.dispatch, .handlerStep, .handlerStep] =
        some { s with pending := rest, dlg := s.dlg.OnThreadEvent event }) ∧
    (event.id = .EID_ABORTED →
      s.steps [.dispatch, .handlerStep, .handlerStep, .handlerStep, .handlerStep] =
        some { s with pending := rest, dlg := s.dlg.OnThreadEvent event, pc := .closed }) := by
  obtain ⟨dlg, pc, worker, abortRequested, pending⟩ := s
  obtain ⟨id, int, string, payload⟩ := event
  simp only at hpc hpending hcell
  subst hpc hpending
  obtain ⟨cell, gauge, info, log, params, code⟩ := dlg
  simp only at hcell
  subst hcell
  constructor
  · intro hid
    simp only at hid
    subst hid
    simp [AlignmentRun.steps, AlignmentRun.step, wxThreadEvent.isTerminal,
      c_ImageAlignmentProgress.IsProcessingInProgress, c_ImageAlignmentProgress.OnThreadEvent]
  · intro hid
    simp only at hid
    subst hid
    simp [AlignmentRun.steps, AlignmentRun.step, wxThreadEvent.isTerminal,
      c_ImageAlignmentProgress.IsProcessingInProgress, c_ImageAlignmentProgress.OnThreadEvent,
      c_ImageAlignmentProgress.EndModal]

end Imppg




